import Mathlib

/-
Verification development for the file-organization core of the repository
(src/main.py and src/mover.py), together with the audit-log component that the
specification describes.

Modelling conventions:
* Python strings are modelled as `List Char` (`Str`); only ASCII decimal digits
  are modelled for `str.isdigit` / `int(...)` (filenames with non-ASCII unicode
  digits are outside the model).
* Python `pathlib.Path` values are modelled as their (normalised) component
  lists, `Path := List Str`; the empty list plays the role of `Path(".")`.
* The filesystem is a finite snapshot: a list of plain files (with abstract
  content carrying a byte size and a SHA-256 digest) plus a list of
  directories.  `glob(stem + "*" + suffix)` is modelled by literal
  prefix/suffix decomposition (glob metacharacters inside file names are not
  modelled).
* Python truthiness/branching is mirrored with decidable propositions.
-/

/-- Model of a Python `str` as its character list. -/
abbrev Str := List Char

/-- Convert a Lean string literal into the `Str` model. -/
def S (s : String) : Str := s.data

/-- Little-endian decimal digits of `n` computed with structural fuel
(`fuel ≥ n` suffices), mirroring repeated divmod by 10. -/
def digitsRevFuel : Nat → Nat → List Nat
  | 0, _ => []
  | fuel + 1, n => if n = 0 then [] else (n % 10) :: digitsRevFuel fuel (n / 10)

/-- Little-endian decimal digits of `n`. -/
def digitsRev (n : Nat) : List Nat := digitsRevFuel n n

/-- Model of Python `str(n)` for a natural number `n`. -/
def natRepr (n : Nat) : Str :=
  if n = 0 then [Nat.digitChar 0] else ((digitsRev n).map Nat.digitChar).reverse

/-- Model of Python `int(s)` on a digit string (value of the decimal numeral). -/
def strToNat (s : Str) : Nat := s.foldl (fun a c => 10 * a + (c.toNat - 48)) 0

/-- Model of Python `s.isdigit()` (ASCII digits; false on the empty string). -/
def isDigitStr (s : Str) : Prop := s ≠ [] ∧ ∀ c ∈ s, c.isDigit

instance (s : Str) : Decidable (isDigitStr s) := by
  unfold isDigitStr; infer_instance

theorem digitsRevFuel_lt_ten {fuel n : Nat} : ∀ d ∈ digitsRevFuel fuel n, d < 10 := by
  induction fuel generalizing n with
  | zero => intro d hd; simp [digitsRevFuel] at hd
  | succ fuel ih =>
    intro d hd
    by_cases h0 : n = 0
    · simp [digitsRevFuel, h0] at hd
    · simp only [digitsRevFuel, if_neg h0, List.mem_cons] at hd
      rcases hd with h | h
      · subst h; exact Nat.mod_lt _ (by norm_num)
      · exact ih d h

theorem ofDigits_digitsRevFuel {fuel n : Nat} (h : n ≤ fuel) :
    Nat.ofDigits 10 (digitsRevFuel fuel n) = n := by
  induction fuel generalizing n with
  | zero => interval_cases n; simp [digitsRevFuel]
  | succ fuel ih =>
    by_cases h0 : n = 0
    · simp [digitsRevFuel, h0, Nat.ofDigits]
    · have hdiv : n / 10 ≤ fuel := by
        have : n / 10 < n := Nat.div_lt_self (Nat.pos_of_ne_zero h0) (by norm_num)
        omega
      simp only [digitsRevFuel, if_neg h0, Nat.ofDigits_cons, ih hdiv]
      omega

theorem digitChar_toNat {d : Nat} (h : d < 10) : (Nat.digitChar d).toNat = 48 + d := by
  interval_cases d <;> rfl

theorem digitChar_isDigit {d : Nat} (h : d < 10) : (Nat.digitChar d).isDigit = true := by
  interval_cases d <;> rfl

theorem digitChar_ne_dot {d : Nat} (h : d < 10) : Nat.digitChar d ≠ '.' := by
  interval_cases d <;> decide

/-- Folding the decimal-evaluation step over the big-endian digit characters of
a little-endian digit list recovers `Nat.ofDigits`. -/
theorem foldl_digitChars (l : List Nat) (hl : ∀ d ∈ l, d < 10) (a : Nat) :
    ((l.map Nat.digitChar).reverse).foldl (fun x c => 10 * x + (c.toNat - 48)) a
      = a * 10 ^ l.length + Nat.ofDigits 10 l := by
  induction l generalizing a with
  | nil => simp [Nat.ofDigits]
  | cons d t ih =>
    have hd : d < 10 := hl d (List.mem_cons_self _ _)
    have ht : ∀ x ∈ t, x < 10 := fun x hx => hl x (List.mem_cons_of_mem _ hx)
    simp only [List.map_cons, List.reverse_cons, List.foldl_append, List.foldl_cons,
      List.foldl_nil, ih ht a, digitChar_toNat hd, Nat.ofDigits_cons, List.length_cons]
    ring_nf
    omega

/-- Round trip: `int(str(n)) = n` in the model. -/
theorem strToNat_natRepr (n : Nat) : strToNat (natRepr n) = n := by
  by_cases h0 : n = 0
  · subst h0; rfl
  · have h10 : ∀ d ∈ digitsRev n, d < 10 := fun d hd => digitsRevFuel_lt_ten d hd
    have := foldl_digitChars (digitsRev n) h10 0
    simp only [strToNat, natRepr, if_neg h0]
    rw [this]
    have hroundtrip : Nat.ofDigits 10 (digitsRev n) = n := by
      unfold digitsRev; exact ofDigits_digitsRevFuel (Nat.le_refl n)
    rw [hroundtrip]
    simp

theorem natRepr_injective : Function.Injective natRepr := by
  intro a b h
  have := strToNat_natRepr a
  rw [h, strToNat_natRepr] at this
  omega

theorem natRepr_ne_nil (n : Nat) : natRepr n ≠ [] := by
  by_cases h0 : n = 0
  · subst h0; simp [natRepr]
  · simp only [natRepr, if_neg h0]
    intro hcon
    have h1 : 0 < n := Nat.pos_of_ne_zero h0
    have : Nat.ofDigits 10 (digitsRevFuel n n) = n := ofDigits_digitsRevFuel (Nat.le_refl n)
    have hnil : digitsRev n = [] := by
      have := List.reverse_eq_nil_iff.mp hcon
      simpa [digitsRev] using List.map_eq_nil_iff.mp this
    rw [digitsRev] at hnil
    rw [hnil] at this
    simp [Nat.ofDigits] at this
    omega

theorem natRepr_isDigitStr (n : Nat) : isDigitStr (natRepr n) := by
  refine ⟨natRepr_ne_nil n, ?_⟩
  intro c hc
  by_cases h0 : n = 0
  · subst h0; simp [natRepr] at hc; subst hc; rfl
  · simp only [natRepr, if_neg h0, List.mem_reverse, List.mem_map] at hc
    obtain ⟨d, hd, rfl⟩ := hc
    exact digitChar_isDigit (digitsRevFuel_lt_ten d hd)

theorem natRepr_no_dot (n : Nat) : '.' ∉ natRepr n := by
  intro hmem
  have := (natRepr_isDigitStr n).2 _ hmem
  simp [Char.isDigit] at this


/-!  ## Model of pathlib name splitting (`Path.stem` / `Path.suffix`)

`pathlib` takes the suffix of a file name to start at the last dot, provided
that dot is neither the first nor the last character of the name; otherwise the
suffix is empty and the stem is the whole name.
-/

/-- Index of the last occurrence of a dot in a name, if any. -/
def lastDotIdx : Str → Option Nat
  | [] => none
  | c :: t =>
    match lastDotIdx t with
    | some i => some (i + 1)
    | none => if c = '.' then some 0 else none

/-- Index at which the `pathlib` suffix starts: the last dot, provided it is an
interior character (not first, not last). -/
def suffixIdx (nm : Str) : Option Nat :=
  match lastDotIdx nm with
  | some i => if 0 < i ∧ i + 1 < nm.length then some i else none
  | none => none

/-- Model of `pathlib.PurePath.stem` on a file name. -/
def pyStem (nm : Str) : Str :=
  match suffixIdx nm with
  | some i => nm.take i
  | none => nm

/-- Model of `pathlib.PurePath.suffix` on a file name. -/
def pySuffix (nm : Str) : Str :=
  match suffixIdx nm with
  | some i => nm.drop i
  | none => []

theorem lastDotIdx_eq_none_iff (nm : Str) : lastDotIdx nm = none ↔ '.' ∉ nm := by
  induction nm with
  | nil => simp [lastDotIdx]
  | cons c t ih =>
    simp only [lastDotIdx, List.mem_cons]
    cases h : lastDotIdx t with
    | some i =>
      rw [h] at ih
      simp only [reduceCtorEq, false_iff] at ih
      have : '.' ∈ t := by
        by_contra hcon
        exact ih hcon
      simp [this]
    | none =>
      rw [h] at ih
      have hdt : '.' ∉ t := ih.mp rfl
      by_cases hc : c = '.'
      · simp [hc]
      · simp only [if_neg hc]
        constructor
        · intro _ hor
          rcases hor with hor | hor
          · exact hc hor.symm
          · exact hdt hor
        · intro _; trivial

theorem lastDotIdx_lt_length {nm : Str} {i : Nat} (h : lastDotIdx nm = some i) :
    i < nm.length := by
  induction nm generalizing i with
  | nil => simp [lastDotIdx] at h
  | cons c t ih =>
    simp only [lastDotIdx] at h
    cases ht : lastDotIdx t with
    | some j =>
      rw [ht] at h
      simp only [Option.some.injEq] at h
      subst h
      simpa using ih ht
    | none =>
      rw [ht] at h
      by_cases hc : c = '.'
      · simp [hc] at h; subst h; simp
      · simp [hc] at h

theorem lastDotIdx_drop {nm : Str} {i : Nat} (h : lastDotIdx nm = some i) :
    nm.drop i = '.' :: nm.drop (i + 1) ∧ '.' ∉ nm.drop (i + 1) := by
  induction nm generalizing i with
  | nil => simp [lastDotIdx] at h
  | cons c t ih =>
    simp only [lastDotIdx] at h
    cases ht : lastDotIdx t with
    | some j =>
      rw [ht] at h
      simp only [Option.some.injEq] at h
      subst h
      simpa using ih ht
    | none =>
      rw [ht] at h
      by_cases hc : c = '.'
      · rw [if_pos hc] at h
        simp only [Option.some.injEq] at h
        subst h
        refine ⟨by simp [hc], ?_⟩
        simpa using (lastDotIdx_eq_none_iff t).mp ht
      · simp [hc] at h

/-- The last dot at the head of a nonempty tail shifts under an append on the
left when the appended part is to the left of the found dot. -/
theorem lastDotIdx_append_some {ys : Str} {j : Nat} (xs : Str)
    (h : lastDotIdx ys = some j) : lastDotIdx (xs ++ ys) = some (xs.length + j) := by
  induction xs with
  | nil => simpa using h
  | cons c t ih =>
    rw [List.cons_append]
    show (match lastDotIdx (t ++ ys) with
      | some i => some (i + 1)
      | none => if c = '.' then some 0 else none) = _
    rw [ih]
    simp only [List.length_cons, Option.some.injEq]
    omega

theorem lastDotIdx_append_none (xs : Str) {ys : Str} (h : lastDotIdx ys = none) :
    lastDotIdx (xs ++ ys) = lastDotIdx xs := by
  induction xs with
  | nil => simpa using h
  | cons c t ih =>
    rw [List.cons_append]
    show (match lastDotIdx (t ++ ys) with
      | some i => some (i + 1)
      | none => if c = '.' then some 0 else none) = _
    rw [ih]
    rfl

theorem pyStem_append_pySuffix (nm : Str) : pyStem nm ++ pySuffix nm = nm := by
  unfold pyStem pySuffix
  cases h : suffixIdx nm with
  | some i => simp
  | none => simp

theorem pySuffix_of_no_dot {nm : Str} (h : '.' ∉ nm) :
    pyStem nm = nm ∧ pySuffix nm = [] := by
  have : lastDotIdx nm = none := (lastDotIdx_eq_none_iff nm).mpr h
  simp [pyStem, pySuffix, suffixIdx, this]

/-- Structure of a nonempty `pathlib` suffix: it starts with an interior dot
and contains no further dot. -/
theorem suffixIdx_some_spec {nm : Str} {i : Nat} (h : suffixIdx nm = some i) :
    lastDotIdx nm = some i ∧ 0 < i ∧ i + 1 < nm.length := by
  unfold suffixIdx at h
  split at h
  next j hld =>
    split at h
    next hcond =>
      cases h
      exact ⟨hld, hcond⟩
    next => cases h
  next => cases h

theorem suffixIdx_eq_some {nm : Str} {i : Nat} (hld : lastDotIdx nm = some i)
    (h1 : 0 < i) (h2 : i + 1 < nm.length) : suffixIdx nm = some i := by
  simp [suffixIdx, hld, h1, h2]

theorem pySuffix_structure (nm : Str) :
    pySuffix nm = [] ∨
      ∃ rest : Str, pySuffix nm = '.' :: rest ∧ rest ≠ [] ∧ '.' ∉ rest := by
  cases h : suffixIdx nm with
  | none => left; simp [pySuffix, h]
  | some i =>
    right
    have hpy : pySuffix nm = nm.drop i := by simp [pySuffix, h]
    obtain ⟨hld, h1, h2⟩ := suffixIdx_some_spec h
    obtain ⟨hdrop, hnodot⟩ := lastDotIdx_drop hld
    refine ⟨nm.drop (i + 1), ?_, ?_, hnodot⟩
    · rw [hpy]; exact hdrop
    · intro hnil
      have : nm.length ≤ i + 1 := List.drop_eq_nil_iff.mp hnil
      omega

theorem pySuffix_eq_nil_iff (nm : Str) : pySuffix nm = [] ↔ suffixIdx nm = none := by
  constructor
  · intro h
    cases hs : suffixIdx nm with
    | none => rfl
    | some i =>
      exfalso
      have hpy : pySuffix nm = nm.drop i := by simp [pySuffix, hs]
      rw [hpy] at h
      have hlen : nm.length ≤ i := List.drop_eq_nil_iff.mp h
      obtain ⟨_, _, h2⟩ := suffixIdx_some_spec hs
      omega
  · intro h; simp [pySuffix, h]

theorem suffixIdx_of_lastDotIdx_none {nm : Str} (h : lastDotIdx nm = none) :
    suffixIdx nm = none := by simp [suffixIdx, h]

theorem suffixIdx_of_lastDotIdx_zero {nm : Str} (h : lastDotIdx nm = some 0) :
    suffixIdx nm = none := by simp [suffixIdx, h]

/-- Parsing a generated name `stem ++ digits ++ suffix` recovers
`(stem ++ digits, suffix)` whenever `(stem, suffix)` came from a well-behaved
split: either the suffix is a proper dot-suffix, or it is empty and the stem
has no interior-trailing dot. -/
theorem pySplit_append_digits (s fx ds : Str)
    (hds_ne : ds ≠ []) (hds_nodot : '.' ∉ ds)
    (hfx : (∃ rest : Str, fx = '.' :: rest ∧ rest ≠ [] ∧ '.' ∉ rest) ∨
           (fx = [] ∧ (lastDotIdx s = none ∨ lastDotIdx s = some 0))) :
    pyStem ((s ++ ds) ++ fx) = s ++ ds ∧ pySuffix ((s ++ ds) ++ fx) = fx := by
  rcases hfx with ⟨rest, rfl, hrest_ne, hrest_nodot⟩ | ⟨rfl, hs⟩
  · have hld_fx : lastDotIdx ('.' :: rest) = some 0 := by
      have : lastDotIdx rest = none := (lastDotIdx_eq_none_iff rest).mpr hrest_nodot
      simp [lastDotIdx, this]
    have hld : lastDotIdx ((s ++ ds) ++ '.' :: rest) = some ((s ++ ds).length + 0) :=
      lastDotIdx_append_some _ hld_fx
    have hds_pos : 0 < ds.length := List.length_pos.mpr hds_ne
    have hrest_pos : 0 < rest.length := List.length_pos.mpr hrest_ne
    have hpos : 0 < (s ++ ds).length + 0 := by
      simp only [List.length_append, Nat.add_zero]
      omega
    have hlt : ((s ++ ds).length + 0) + 1 < ((s ++ ds) ++ '.' :: rest).length := by
      simp only [List.length_append, List.length_cons, Nat.add_zero]
      omega
    have hsi : suffixIdx ((s ++ ds) ++ '.' :: rest) = some ((s ++ ds).length + 0) :=
      suffixIdx_eq_some hld hpos hlt
    constructor
    · simp only [pyStem, hsi, Nat.add_zero]
      exact List.take_left' rfl
    · simp only [pySuffix, hsi, Nat.add_zero]
      exact List.drop_left' rfl
  · have hld_ds : lastDotIdx ds = none := (lastDotIdx_eq_none_iff ds).mpr hds_nodot
    have hld : lastDotIdx (s ++ ds) = lastDotIdx s := lastDotIdx_append_none s hld_ds
    have hsi : suffixIdx (s ++ ds) = none := by
      rcases hs with hs | hs
      · exact suffixIdx_of_lastDotIdx_none (hld.trans hs)
      · exact suffixIdx_of_lastDotIdx_zero (hld.trans hs)
    constructor
    · rw [List.append_nil]; simp [pyStem, hsi]
    · rw [List.append_nil]; simp [pySuffix, hsi]

/-- A name is "good" when appending a decimal counter to its stem cannot change
how pathlib splits it: its suffix is nonempty, or its stem does not end in a
dot.  (The planner's conflict detection silently breaks exactly on names whose
suffix is empty and whose stem ends in a dot, e.g. `x.` versus `x.2`.) -/
def goodName (nm : Str) : Prop :=
  pySuffix nm ≠ [] ∨ nm.getLast? ≠ some '.'

instance (nm : Str) : Decidable (goodName nm) := by
  unfold goodName; infer_instance

theorem getLast?_of_drop_pred {nm : Str} {i : Nat} (hi : i + 1 = nm.length)
    (hdrop : nm.drop i = '.' :: nm.drop (i + 1)) : nm.getLast? = some '.' := by
  have hnil : nm.drop (i + 1) = [] := List.drop_eq_nil_iff.mpr (by omega)
  rw [hnil] at hdrop
  have : nm = nm.take i ++ ['.'] := by
    conv_lhs => rw [← List.take_append_drop i nm]
    rw [hdrop]
  rw [this]
  simp

/-- For a good name, the split of the original name satisfies the side
condition of `pySplit_append_digits`. -/
theorem goodName_split_cond {nm : Str} (hg : goodName nm) :
    (∃ rest : Str, pySuffix nm = '.' :: rest ∧ rest ≠ [] ∧ '.' ∉ rest) ∨
      (pySuffix nm = [] ∧
        (lastDotIdx (pyStem nm) = none ∨ lastDotIdx (pyStem nm) = some 0)) := by
  rcases pySuffix_structure nm with hnil | hstruct
  · right
    refine ⟨hnil, ?_⟩
    have hstem : pyStem nm = nm := by
      have := pySuffix_eq_nil_iff nm |>.mp hnil
      simp [pyStem, this]
    rw [hstem]
    cases hld : lastDotIdx nm with
    | none => exact Or.inl rfl
    | some i =>
      right
      have hidx := pySuffix_eq_nil_iff nm |>.mp hnil
      have hcond : ¬(0 < i ∧ i + 1 < nm.length) := by
        intro hcond
        rw [suffixIdx_eq_some hld hcond.1 hcond.2] at hidx
        cases hidx
      have hi_lt : i < nm.length := lastDotIdx_lt_length hld
      by_cases hzero : i = 0
      · subst hzero; rfl
      · exfalso
        have hlast : i + 1 = nm.length := by omega
        obtain ⟨hdrop, _⟩ := lastDotIdx_drop hld
        have := getLast?_of_drop_pred hlast hdrop
        rcases hg with hg | hg
        · exact hg hnil
        · exact hg this
  · exact Or.inl hstruct

/-!  ## Filesystem model -/

/-- A path is its list of components; `[]` plays the role of `Path(".")`.
(Named `FPath` because Mathlib already uses `Path`.) -/
abbrev FPath := List Str

/-- Render a path the way `str(PosixPath(...))` does (components joined by a
slash). -/
def renderPath (p : FPath) : Str := (p.intersperse (S ("/"))).flatten

/-- Model of `Path.parent` (the component list without the last entry). -/
def parentP (p : FPath) : FPath := p.dropLast

/-- Model of `Path.name` (the last component; empty for `Path(".")`). -/
def nameP (p : FPath) : Str := p.getLast?.getD []

/-- Abstract content of a plain file: a byte size plus the SHA-256 digest the
streaming hasher of `FileMover._calculate_hash` would produce for it. -/
structure Content where
  size : Nat
  hash : Str
  deriving DecidableEq

/-- Snapshot of the filesystem: plain files with their contents, and
directories.  Both lists hold (normalised) absolute-style component paths. -/
structure FS where
  files : List (FPath × Content)
  dirs : List FPath
  deriving DecidableEq

/-- Every entry (file or directory) of the snapshot. -/
def allEntries (fs : FS) : List FPath := fs.files.map Prod.fst ++ fs.dirs

/-- Model of `Path.exists()`: the empty path (`Path(".")`, the working
directory) always exists; otherwise the path must be a known entry. -/
def pyExistsP (fs : FS) (p : FPath) : Prop := p = [] ∨ p ∈ allEntries fs

instance (fs : FS) (p : FPath) : Decidable (pyExistsP fs p) := by
  unfold pyExistsP; infer_instance

/-- Model of `Path.is_file()`. -/
def isFileP (fs : FS) (p : FPath) : Prop := p ∈ fs.files.map Prod.fst

instance (fs : FS) (p : FPath) : Decidable (isFileP fs p) := by
  unfold isFileP; infer_instance

/-- Content lookup for a plain file. -/
def getContent (fs : FS) (p : FPath) : Option Content :=
  (fs.files.find? (fun e => decide (e.1 = p))).map Prod.snd

/-- Well-formed snapshot: entries are nonempty paths whose parent directories
exist, no path is both a file and a directory, and file paths are unique. -/
def WF (fs : FS) : Prop :=
  (∀ e ∈ allEntries fs, e ≠ []) ∧
  (∀ e ∈ allEntries fs, parentP e = [] ∨ parentP e ∈ fs.dirs) ∧
  (∀ e ∈ fs.files, e.1 ∉ fs.dirs) ∧
  (fs.files.map Prod.fst).Nodup

instance (fs : FS) : Decidable (WF fs) := by
  unfold WF; infer_instance

/-- The nonempty prefixes of a path, shortest first (the directories that
`mkdir(parents=True, exist_ok=True)` would ensure). -/
def prefixesOf (p : FPath) : List FPath :=
  (List.range p.length).map fun i => p.take (i + 1)

/-- `mkdir(parents=True)` succeeds iff no needed prefix is an existing plain
file. -/
def mkdirOk (fs : FS) (p : FPath) : Prop :=
  ∀ q ∈ prefixesOf p, ¬ isFileP fs q

instance (fs : FS) (p : FPath) : Decidable (mkdirOk fs p) := by
  unfold mkdirOk; infer_instance

/-- Effect of `mkdir(parents=True, exist_ok=True)`: all missing prefixes become
directories. -/
def mkdirParents (fs : FS) (p : FPath) : FS :=
  { fs with dirs := fs.dirs ++ (prefixesOf p).filter (fun q => decide (q ∉ fs.dirs)) }

/-!  ## The while-loop search for a free sequence number

The unbounded Python loops (`while counter in existing_numbers` in
`_resolve_planning_conflicts`, `while True` probing `exists()` in
`_handle_conflicts`) are modelled with explicit fuel; fuel `n + 1` where `n`
bounds the number of occupied candidates always suffices, which
`searchFree_spec` and `exists_notMem_of_injective` below make precise. -/

/-- Fuel-bounded linear search for the first counter `c` with `bad c` false. -/
def searchFree (bad : Nat → Bool) : Nat → Nat → Nat
  | c, 0 => c
  | c, fuel + 1 => if bad c then searchFree bad (c + 1) fuel else c

theorem searchFree_spec (bad : Nat → Bool) :
    ∀ (fuel c : Nat), (∃ k, k < fuel ∧ bad (c + k) = false) →
      bad (searchFree bad c fuel) = false ∧ c ≤ searchFree bad c fuel ∧
        ∀ j, c ≤ j → j < searchFree bad c fuel → bad j = true := by
  intro fuel
  induction fuel with
  | zero =>
    intro c h
    obtain ⟨k, hk, _⟩ := h
    omega
  | succ fuel ih =>
    intro c h
    obtain ⟨k, hk, hbad⟩ := h
    cases hc : bad c with
    | true =>
      have hk0 : k ≠ 0 := by
        intro h0
        subst h0
        simp only [Nat.add_zero] at hbad
        rw [hbad] at hc
        cases hc
      have heq : c + 1 + (k - 1) = c + k := by omega
      have hex : ∃ k2, k2 < fuel ∧ bad (c + 1 + k2) = false := by
        refine ⟨k - 1, by omega, ?_⟩
        rw [heq]
        exact hbad
      obtain ⟨h1, h2, h3⟩ := ih (c + 1) hex
      refine ⟨?_, ?_, ?_⟩
      · simpa [searchFree, hc] using h1
      · simp only [searchFree, hc, if_true]
        omega
      · intro j hj1 hj2
        simp only [searchFree, hc, if_true] at hj2
        rcases Nat.eq_or_lt_of_le hj1 with rfl | hlt
        · exact hc
        · exact h3 j (by omega) hj2
    | false =>
      refine ⟨?_, ?_, ?_⟩
      · simp [searchFree, hc]
      · simp [searchFree, hc]
      · intro j hj1 hj2
        simp only [searchFree, hc, if_false, Bool.false_eq_true] at hj2
        omega

/-- Among `l.length + 1` distinct values of an injective enumeration, at least
one is not in `l`. -/
theorem exists_notMem_of_injective {α : Type} [DecidableEq α] (l : List α)
    (f : Nat → α) (hf : Function.Injective f) (c : Nat) :
    ∃ k, k < l.length + 1 ∧ f (c + k) ∉ l := by
  by_contra hcon
  push_neg at hcon
  have hsub : (Finset.range (l.length + 1)).image (fun k => f (c + k)) ⊆ l.toFinset := by
    intro x hx
    simp only [Finset.mem_image, Finset.mem_range] at hx
    obtain ⟨k, hk, rfl⟩ := hx
    exact List.mem_toFinset.mpr (hcon k hk)
  have hcard : ((Finset.range (l.length + 1)).image (fun k => f (c + k))).card
      = l.length + 1 := by
    rw [Finset.card_image_of_injective _ (fun a b hab => by
      have := hf hab; omega)]
    exact Finset.card_range _
  have hle := Finset.card_le_card hsub
  rw [hcard] at hle
  have := List.toFinset_card_le l
  omega

/-!  ## FileMover (src/mover.py) -/

/-- The ASCII single-quote character used in the Python error f-strings. -/
def quoteC : Char := Char.ofNat 39

/-- Python `repr` of a list of strings, as interpolated into error messages. -/
def pyListRepr (xs : List Str) : Str :=
  [Char.ofNat 91]
    ++ ((xs.map fun x => quoteC :: x ++ [quoteC]).intersperse (S (", "))).flatten
    ++ [Char.ofNat 93]

/-- Python exception values raised by the mover, with their messages. -/
inductive PyError where
  | valueError (msg : Str)
  | fileNotFound (msg : Str)
  | permissionError (msg : Str)
  | runtimeError (msg : Str)
  deriving DecidableEq

/-- The fixed category taxonomy from `FileMover.__init__` (`sub_dirs_map`). -/
def subDirsMap : List (Str × List Str) :=
  [ (S ("documents"), [S ("pdf"), S ("word"), S ("excel")]),
    (S ("finance"), [S ("invoices"), S ("receipts")]),
    (S ("work"), [S ("projects"), S ("other")]),
    (S ("studies"), [S ("notes"), S ("assignments")]),
    (S ("health"), [S ("training"), S ("insurance")]),
    (S ("photos"), [S ("camera"), S ("phone"), S ("screenshots")]),
    (S ("software"), [S ("installers"), S ("configs")]),
    (S ("archives"), [S ("zip"), S ("rar")]),
    (S ("hidden"), []),
    (S ("large"), []),
    (S ("misc"), []),
    (S ("dev"), [S ("python"), S ("javascript"), S ("java"), S ("other")]) ]

/-- First-match association lookup (model of Python dict indexing /
`in self.sub_dirs_map`). -/
def lookupSub : List (Str × List Str) → Str → Option (List Str)
  | [], _ => none
  | (k, v) :: t, cat => if k = cat then some v else lookupSub t cat

/-- Construction-time configuration of `FileMover`. -/
structure MoverCfg where
  root : FPath
  copyMode : Bool

def msgEmptySuggested : Str := S ("Suggested path is empty")

def msgInvalidCategory (cat : Str) : Str :=
  S ("Invalid category ") ++ quoteC :: cat ++ [quoteC] ++ S (". Valid categories: ")
    ++ pyListRepr (subDirsMap.map Prod.fst)

def msgInvalidSubcategory (sub cat : Str) (valid : List Str) : Str :=
  S ("Invalid subcategory ") ++ quoteC :: sub ++ [quoteC] ++ S (" for category ")
    ++ quoteC :: cat ++ [quoteC] ++ S (". Valid subcategories: ") ++ pyListRepr valid

/-- Model of `FileMover._validate_category`. -/
def validateCategory (suggestedPath : FPath) : Except PyError Unit :=
  match suggestedPath with
  | [] => .error (.runtimeError msgEmptySuggested)
  | cat :: rest =>
    match lookupSub subDirsMap cat with
    | none => .error (.runtimeError (msgInvalidCategory cat))
    | some validSubs =>
      match rest with
      | [] => .ok ()
      | sub :: _ =>
        if validSubs ≠ [] ∧ sub ∉ validSubs then
          .error (.runtimeError (msgInvalidSubcategory sub cat validSubs))
        else
          .ok ()

def msgExtensionChanged (srcSfx sugSfx : Str) : Str :=
  S ("File extension cannot be changed during organization. Source: ")
    ++ quoteC :: srcSfx ++ [quoteC] ++ S (", Suggested: ") ++ quoteC :: sugSfx ++ [quoteC]
    ++ S (". File extensions must remain the same to preserve file type and compatibility.")

/-- Model of `FileMover._validate_extension`. -/
def validateExtension (sourcePath suggestedPath : FPath) : Except PyError Unit :=
  let sourceSuffix := (pySuffix (nameP sourcePath)).map Char.toLower
  let suggestedSuffix := (pySuffix (nameP suggestedPath)).map Char.toLower
  if sourceSuffix = suggestedSuffix then .ok ()
  else .error (.valueError (msgExtensionChanged sourceSuffix suggestedSuffix))

/-- Model of `FileMover._handle_conflicts`: probe `exists()` with counters
2, 3, ... until a free name is found.  For names containing a dot (and for
plain files, whose dot-free split degenerates to the same formula) the counter
goes between stem and suffix; for directory-style names it is appended. -/
def handleConflicts (fs : FS) (destination : FPath) : FPath :=
  if ¬ pyExistsP fs destination then destination
  else
    let fuel := (allEntries fs).length + 1
    let nm := nameP destination
    if isFileP fs destination ∨ '.' ∈ nm then
      let s := pyStem nm
      let fx := pySuffix nm
      let c := searchFree
        (fun k => decide (pyExistsP fs (parentP destination ++ [s ++ natRepr k ++ fx]))) 2 fuel
      parentP destination ++ [s ++ natRepr c ++ fx]
    else
      let c := searchFree
        (fun k => decide (pyExistsP fs (parentP destination ++ [nm ++ natRepr k]))) 2 fuel
      parentP destination ++ [nm ++ natRepr c]

/-- Size ceiling (100 MB) below which files are checksummed. -/
def hashCeiling : Nat := 100 * 1024 * 1024

/-- The wrapper message of the `except` blocks of `FileMover.move` and
`FileMover.copy`. -/
def failMsg (verb : Str) (src dst : FPath) (inner : Str) : Str :=
  S ("Failed to ") ++ verb ++ [Char.ofNat 32] ++ renderPath src ++ S (" to ")
    ++ renderPath dst ++ S (": ") ++ inner

/-- Relocate a path under a moved/copied tree root. -/
def relocateUnder (src dst p : FPath) : FPath := dst ++ p.drop src.length

/-- Model of `Path.is_dir()`. -/
def isDirP (fs : FS) (p : FPath) : Prop := p = [] ∨ p ∈ fs.dirs

instance (fs : FS) (p : FPath) : Decidable (isDirP fs p) := by
  unfold isDirP; infer_instance

/-- Effect of `shutil.move` (file rename or directory-tree move); the transfer
function models what the OS writes at the destination (identity for a faithful
transfer). -/
def moveTree (fs : FS) (xfer : Content → Content) (src dst : FPath) : FS :=
  { files := fs.files.map fun e =>
      if src <+: e.1 then (relocateUnder src dst e.1, xfer e.2) else e,
    dirs := fs.dirs.map fun d => if src <+: d then relocateUnder src dst d else d }

/-- Effect of `shutil.copytree`. -/
def copyTree (fs : FS) (xfer : Content → Content) (src dst : FPath) : FS :=
  { files := fs.files ++ (fs.files.filter fun e => decide (src <+: e.1)).map
      (fun e => (relocateUnder src dst e.1, xfer e.2)),
    dirs := fs.dirs ++ (fs.dirs.filter fun d => decide (src <+: d)).map
      (relocateUnder src dst) }

/-- Shared checksum verification step of `move`/`copy`: fails when a source
hash was captured (truthy), the final destination is a plain file, and its
recomputed hash differs. -/
def verifyFail (srcHash : Option Str) (fs2 : FS) (final : FPath) : Bool :=
  match srcHash with
  | some h =>
    decide (h ≠ []) && decide (isFileP fs2 final) &&
      (match getContent fs2 final with
       | some c2 => decide (c2.hash ≠ h)
       | none => false)
  | none => false

/-- Hash captured before the transfer, for plain files under the ceiling. -/
def captureHash (fs : FS) (source : FPath) : Option Str :=
  match getContent fs source with
  | some c => if c.size < hashCeiling then some c.hash else none
  | none => none

/-- Model of `FileMover.move`.  `os.access` permission checks are modelled as
granted.  The returned snapshot reflects all mutations performed before a
raised exception (Python exceptions do not roll anything back). -/
def pyMove (fs : FS) (xfer : Content → Content) (source destination : FPath) :
    FS × Except PyError FPath :=
  if source = [] then (fs, .error (.valueError (S ("Source path cannot be empty"))))
  else if destination = [] then
    (fs, .error (.valueError (S ("Destination path cannot be empty"))))
  else if ¬ pyExistsP fs source then
    (fs, .error (.fileNotFound (S ("Source does not exist: ") ++ renderPath source)))
  else if ¬ mkdirOk fs (parentP destination) then
    (fs, .error (.runtimeError
      (failMsg (S ("move")) source destination (S ("mkdir failed")))))
  else
    let fs1 := mkdirParents fs (parentP destination)
    let final := handleConflicts fs1 destination
    let srcHash := captureHash fs1 source
    let fs2 := moveTree fs1 xfer source final
    if verifyFail srcHash fs2 final then
      (fs2, .error (.runtimeError
        (failMsg (S ("move")) source destination (S ("File hash mismatch after move!")))))
    else
      (fs2, .ok final)

/-- Model of `FileMover.copy` (same validation structure as `move`, but the
source is preserved and directory trees are duplicated). -/
def pyCopy (fs : FS) (xfer : Content → Content) (source destination : FPath) :
    FS × Except PyError FPath :=
  if source = [] then (fs, .error (.valueError (S ("Source path cannot be empty"))))
  else if destination = [] then
    (fs, .error (.valueError (S ("Destination path cannot be empty"))))
  else if ¬ pyExistsP fs source then
    (fs, .error (.fileNotFound (S ("Source does not exist: ") ++ renderPath source)))
  else if ¬ mkdirOk fs (parentP destination) then
    (fs, .error (.runtimeError
      (failMsg (S ("copy")) source destination (S ("mkdir failed")))))
  else
    let fs1 := mkdirParents fs (parentP destination)
    let final := handleConflicts fs1 destination
    let srcHash := captureHash fs1 source
    let fs2 :=
      if isDirP fs1 source then copyTree fs1 xfer source final
      else
        { fs1 with files := fs1.files ++
            [(final, xfer ((getContent fs1 source).getD ⟨0, []⟩))] }
    if verifyFail srcHash fs2 final then
      (fs2, .error (.runtimeError
        (failMsg (S ("copy")) source destination (S ("File hash mismatch after copy!")))))
    else
      (fs2, .ok final)

/-- Model of `FileMover.organize_file`: validations in source order, then the
copy-or-move dispatch on the construction-time mode. -/
def organizeFile (cfg : MoverCfg) (fs : FS) (xfer : Content → Content)
    (sourceFilePath suggestedPath : FPath) : FS × Except PyError FPath :=
  if sourceFilePath = [] then
    (fs, .error (.valueError (S ("Source file path cannot be empty"))))
  else if suggestedPath = [] then
    (fs, .error (.valueError (S ("Suggested path cannot be empty"))))
  else if ¬ pyExistsP fs sourceFilePath then
    (fs, .error (.fileNotFound
      (S ("Source file does not exist: ") ++ renderPath sourceFilePath)))
  else
    match validateCategory suggestedPath with
    | .error e => (fs, .error e)
    | .ok _ =>
      match validateExtension sourceFilePath suggestedPath with
      | .error e => (fs, .error e)
      | .ok _ =>
        let destinationPath := cfg.root ++ suggestedPath
        if cfg.copyMode then pyCopy fs xfer sourceFilePath destinationPath
        else pyMove fs xfer sourceFilePath destinationPath

/-!  ## Planning-time conflict resolution
(`FileOrganizer._resolve_planning_conflicts`, src/main.py) -/

/-- Sequence numbers contributed by one name during the scans: the bare stem
counts as 1, and `stem` followed by a pure digit string counts as its value. -/
def numberOf (s n : Str) : Option Nat :=
  if n = s then some 1
  else if s <+: n ∧ isDigitStr (n.drop s.length) then some (strToNat (n.drop s.length))
  else none

/-- Glob semantics of the pattern `stem*suffix` on a literal name. -/
def globMatches (s fx nm : Str) : Prop :=
  s <+: nm ∧ fx <:+ nm ∧ s.length + fx.length ≤ nm.length

instance (s fx nm : Str) : Decidable (globMatches s fx nm) := by
  unfold globMatches; infer_instance

/-- Numbers already used on disk: scan `parent` (when it exists) for entries
matching the glob `stem*suffix` and read their stems. -/
def diskNumbers (fs : FS) (parent : FPath) (s fx : Str) : List Nat :=
  if pyExistsP fs parent then
    (allEntries fs).filterMap fun e =>
      if parentP e = parent ∧ globMatches s fx (nameP e) then
        numberOf s (pyStem (nameP e))
      else none
  else []

/-- Numbers already used by the reserved planning batch: scan the reserved set
for paths with the same parent and suffix and read their stems. -/
def plannedNumbers (reserved : List FPath) (parent : FPath) (s fx : Str) : List Nat :=
  reserved.filterMap fun q =>
    if parentP q = parent ∧ pySuffix (nameP q) = fx then
      numberOf s (pyStem (nameP q))
    else none

/-- Model of `FileOrganizer._resolve_planning_conflicts`: keep a destination
that is neither reserved nor on disk; otherwise append the smallest counter
`≥ 2` not used on disk or in the batch. -/
def resolvePlanningConflicts (fs : FS) (reserved : List FPath)
    (destinationPath : FPath) : FPath :=
  if destinationPath ∉ reserved ∧ ¬ pyExistsP fs destinationPath then destinationPath
  else
    let nm := nameP destinationPath
    let s := pyStem nm
    let fx := pySuffix nm
    let parent := parentP destinationPath
    let used := diskNumbers fs parent s fx ++ plannedNumbers reserved parent s fx
    let counter := searchFree (fun k => decide (k ∈ used)) 2 (used.length + 1)
    parent ++ [s ++ natRepr counter ++ fx]

/-- Resolution of a whole batch of destinations in input order, with the
reserved set growing by each resolved result (the accumulation in
`FileOrganizer._execute_organization`, phase 1). -/
def resolveBatchAux (fs : FS) : List FPath → List FPath → List FPath
  | _, [] => []
  | reserved, d :: ds =>
    let r := resolvePlanningConflicts fs reserved d
    r :: resolveBatchAux fs (r :: reserved) ds

/-- Batch resolution starting from an empty reserved set. -/
def resolveBatch (fs : FS) (cands : List FPath) : List FPath :=
  resolveBatchAux fs [] cands

/-!  ## The planning/execution workflow
(`FileOrganizer._execute_organization`, src/main.py) -/

/-- Modelled from the spec: `FileMover._get_final_destination` is called at
src/main.py line 160 but is absent from src/mover.py (and from every file under
src/).  Per spec sections 4.5 and 7 it validates a suggestion against the
category taxonomy and the extension-preservation rule and computes the real
destination by prefixing the output root, without touching the filesystem. -/
def getFinalDestination (cfg : MoverCfg) (sourcePath suggestedPath : FPath) :
    Except PyError FPath :=
  match validateCategory suggestedPath with
  | .error e => .error e
  | .ok _ =>
    match validateExtension sourcePath suggestedPath with
    | .error e => .error e
    | .ok _ => .ok (cfg.root ++ suggestedPath)

/-- One planned move: the analysed source, the raw suggestion, and the
conflict-resolved final destination. -/
structure PlanItem where
  source : FPath
  suggestion : FPath
  final : FPath
  deriving DecidableEq

/-- Phase 1 of `_execute_organization`: walk the analyses in order; a missing
suggestion or a failed validation becomes a skip, otherwise the destination is
resolved against disk and the growing reserved set.  The filesystem is only
read, never written, during planning. -/
def planPhase (cfg : MoverCfg) (fs : FS) :
    List (FPath × Option FPath) → List FPath → List PlanItem × Nat
  | [], _ => ([], 0)
  | (_, none) :: rest, reserved =>
    let (ps, k) := planPhase cfg fs rest reserved
    (ps, k + 1)
  | (source, some sugg) :: rest, reserved =>
    match getFinalDestination cfg source sugg with
    | .error _ =>
      let (ps, k) := planPhase cfg fs rest reserved
      (ps, k + 1)
    | .ok d =>
      let r := resolvePlanningConflicts fs reserved d
      let (ps, k) := planPhase cfg fs rest (r :: reserved)
      (⟨source, sugg, r⟩ :: ps, k)

/-- Phase 3 of `_execute_organization`: run `organize_file` on each approved
move (with the raw suggestion, as the code does), counting successes and
per-file errors; an exception leaves the mutations already performed in place
and execution continues with the next file. -/
def execPhase (cfg : MoverCfg) (xfer : Content → Content) :
    FS → List PlanItem → FS × Nat × Nat
  | fs, [] => (fs, 0, 0)
  | fs, item :: rest =>
    match organizeFile cfg fs xfer item.source item.suggestion with
    | (fs1, .ok _) =>
      let (fs2, o, e) := execPhase cfg xfer fs1 rest
      (fs2, o + 1, e)
    | (fs1, .error _) =>
      let (fs2, o, e) := execPhase cfg xfer fs1 rest
      (fs2, o, e + 1)

/-- Result record of `_execute_organization`. -/
structure OrgResult where
  organizedCount : Nat
  totalCount : Nat
  skippedCount : Nat
  errorCount : Nat
  fs : FS
  deriving DecidableEq

/-- Model of `FileOrganizer._execute_organization`: plan, ask for
confirmation, then execute.  A negative confirmation marks every planned move
as skipped and mutates nothing. -/
def executeOrganization (cfg : MoverCfg) (xfer : Content → Content) (fs : FS)
    (analyses : List (FPath × Option FPath)) (confirm : Bool) : OrgResult :=
  let (plans, skipped) := planPhase cfg fs analyses []
  if plans = [] then
    ⟨0, analyses.length, skipped, 0, fs⟩
  else if ¬ confirm then
    ⟨0, analyses.length, skipped + plans.length, 0, fs⟩
  else
    let (fs2, o, e) := execPhase cfg xfer fs plans
    ⟨o, analyses.length, skipped, e, fs2⟩

/-!  ## Audit log (spec section 4.4)

No audit-log component exists anywhere under src/ (no append, no undo, no
`logs/file_organizer.json` writer), so this whole component is modelled from
the specification. -/

/-- Modelled from the spec: one persisted audit entry (timestamp, source,
destination, nullable content hash, size). -/
structure AuditEntry where
  timestamp : Str
  source : FPath
  destination : FPath
  fileHash : Option Str
  size : Nat
  deriving DecidableEq

/-- Modelled from the spec: the audit-log state — the filesystem, the
in-memory ordered entry list, and the persisted representation that is
rewritten wholesale on every change. -/
structure AuditState where
  fs : FS
  entries : List AuditEntry
  persisted : List AuditEntry
  deriving DecidableEq

/-- Modelled from the spec: physically move `dst` back to `src` (file or
directory tree), the reversal step of `undoLast`. -/
def moveBack (fs : FS) (dst src : FPath) : FS :=
  { files := fs.files.map fun e =>
      if dst <+: e.1 then (relocateUnder dst src e.1, e.2) else e,
    dirs := fs.dirs.map fun d => if dst <+: d then relocateUnder dst src d else d }

/-- Modelled from the spec: `undoLast()` — if the log is non-empty and the
last entry's destination exists while its source does not, move the
destination back, pop the entry, persist, and report success; otherwise report
failure. -/
def undoLast (st : AuditState) : Bool × AuditState :=
  match st.entries.getLast? with
  | none => (false, st)
  | some e =>
    if pyExistsP st.fs e.destination ∧ ¬ pyExistsP st.fs e.source then
      (true,
        { fs := moveBack st.fs e.destination e.source,
          entries := st.entries.dropLast,
          persisted := st.entries.dropLast })
    else
      (false, st)

/-!  ## Supporting lemmas about the resolver -/

theorem nameP_concat (par : FPath) (n : Str) : nameP (par ++ [n]) = n := by
  simp [nameP]

theorem parentP_concat (par : FPath) (n : Str) : parentP (par ++ [n]) = par := by
  simp [parentP]

theorem concat_ne_nil (par : FPath) (n : Str) : par ++ [n] ≠ [] := by
  simp

/-- A path with its last component split off. -/
theorem parent_concat_name {p : FPath} (h : p ≠ []) : parentP p ++ [nameP p] = p := by
  unfold parentP nameP
  cases hp : p.getLast? with
  | none => exact absurd (List.getLast?_eq_none_iff.mp hp) h
  | some a =>
    simp only [Option.getD_some]
    have := List.dropLast_append_getLast? _ hp
    simpa using this

theorem numberOf_append_natRepr (s : Str) (c : Nat) :
    numberOf s (s ++ natRepr c) = some c := by
  unfold numberOf
  have hne : ¬ (s ++ natRepr c = s) := by
    intro h
    have := congrArg List.length h
    simp only [List.length_append] at this
    have := natRepr_ne_nil c
    have : (natRepr c).length ≠ 0 := fun h0 => this (List.eq_nil_of_length_eq_zero h0)
    omega
  rw [if_neg hne]
  have hcond : s <+: s ++ natRepr c ∧ isDigitStr ((s ++ natRepr c).drop s.length) := by
    constructor
    · exact List.prefix_append s (natRepr c)
    · rw [List.drop_left]
      exact natRepr_isDigitStr c
  rw [if_pos hcond]
  rw [List.drop_left, strToNat_natRepr]

/-- Specification of the spec-modelled `_get_final_destination` on success. -/
theorem getFinalDestination_ok {cfg : MoverCfg} {src sugg d : FPath}
    (h : getFinalDestination cfg src sugg = .ok d) :
    d = cfg.root ++ sugg ∧ sugg ≠ [] := by
  unfold getFinalDestination at h
  cases hv : validateCategory sugg with
  | error e => rw [hv] at h; cases h
  | ok _ =>
    rw [hv] at h
    cases he : validateExtension src sugg with
    | error e => rw [he] at h; cases h
    | ok _ =>
      rw [he] at h
      cases h
      refine ⟨rfl, ?_⟩
      intro hnil
      subst hnil
      simp [validateCategory] at hv

/-- The name generated by the resolver for a good candidate parses back to the
same stem-prefix and suffix. -/
theorem generated_name_parse {nm : Str} (hg : goodName nm) (c : Nat) :
    pyStem (pyStem nm ++ natRepr c ++ pySuffix nm) = pyStem nm ++ natRepr c ∧
      pySuffix (pyStem nm ++ natRepr c ++ pySuffix nm) = pySuffix nm := by
  have hassoc : pyStem nm ++ natRepr c ++ pySuffix nm
      = (pyStem nm ++ natRepr c) ++ pySuffix nm := by
    rw [List.append_assoc]
  rw [hassoc]
  exact pySplit_append_digits (pyStem nm) (pySuffix nm) (natRepr c)
    (natRepr_ne_nil c) (natRepr_no_dot c) (goodName_split_cond hg)

/-- Central freshness property of `_resolve_planning_conflicts`: on a
well-formed snapshot and a good candidate name, the resolved path is neither in
the reserved set nor an existing entry. -/
theorem resolve_fresh (fs : FS) (reserved : List FPath) (d : FPath)
    (hwf : WF fs) (hgood : goodName (nameP d)) :
    resolvePlanningConflicts fs reserved d ∉ reserved ∧
      resolvePlanningConflicts fs reserved d ∉ allEntries fs := by
  unfold resolvePlanningConflicts
  by_cases hkeep : d ∉ reserved ∧ ¬ pyExistsP fs d
  · rw [if_pos hkeep]
    exact ⟨hkeep.1, fun hmem => hkeep.2 (Or.inr hmem)⟩
  · rw [if_neg hkeep]
    simp only []
    set nm := nameP d with hnm
    set s := pyStem nm with hs
    set fx := pySuffix nm with hfx
    set parent := parentP d with hparent
    set used := diskNumbers fs parent s fx ++ plannedNumbers reserved parent s fx
      with hused
    have hex : ∃ k, k < used.length + 1 ∧
        (fun k => decide (k ∈ used)) (2 + k) = false := by
      obtain ⟨k, hk, hnot⟩ :=
        exists_notMem_of_injective used (fun n => n) (fun a b hab => hab) 2
      exact ⟨k, hk, by simpa using hnot⟩
    obtain ⟨hfree, hge, _⟩ :=
      searchFree_spec (fun k => decide (k ∈ used)) (used.length + 1) 2 hex
    set counter := searchFree (fun k => decide (k ∈ used)) 2 (used.length + 1)
      with hcounter
    have hcnot : counter ∉ used := by simpa using hfree
    obtain ⟨hstem_g, hsfx_g⟩ := generated_name_parse hgood counter
    constructor
    · intro hres
      apply hcnot
      rw [hused]
      apply List.mem_append_right
      unfold plannedNumbers
      apply List.mem_filterMap.mpr
      refine ⟨parent ++ [s ++ natRepr counter ++ fx], hres, ?_⟩
      rw [if_pos ⟨parentP_concat _ _, by rw [nameP_concat]; exact hsfx_g⟩]
      rw [nameP_concat, hstem_g]
      exact numberOf_append_natRepr s counter
    · intro hmem
      apply hcnot
      rw [hused]
      apply List.mem_append_left
      unfold diskNumbers
      have hparent_ex : pyExistsP fs parent := by
        have := hwf.2.1 _ hmem
        rw [parentP_concat] at this
        rcases this with h0 | hdir
        · exact Or.inl h0
        · exact Or.inr (List.mem_append_right _ hdir)
      rw [if_pos hparent_ex]
      apply List.mem_filterMap.mpr
      refine ⟨parent ++ [s ++ natRepr counter ++ fx], hmem, ?_⟩
      have hglob : globMatches s fx (nameP (parent ++ [s ++ natRepr counter ++ fx])) := by
        rw [nameP_concat]
        refine ⟨?_, ?_, ?_⟩
        · rw [List.append_assoc]
          exact List.prefix_append s _
        · exact List.suffix_append _ fx
        · simp only [List.length_append]
          omega
      rw [if_pos ⟨parentP_concat _ _, hglob⟩]
      rw [nameP_concat, hstem_g]
      exact numberOf_append_natRepr s counter

/-- Batch invariant of planning phase 1: with a well-formed snapshot and good
candidate names, every resolved final destination avoids the incoming reserved
set, the resolved finals are pairwise distinct, and none is an existing
filesystem entry.  Planning is a pure function of the snapshot: no filesystem
mutation happens before (or during) resolution. -/
theorem planPhase_fresh (cfg : MoverCfg) (fs : FS) (hwf : WF fs) :
    ∀ (analyses : List (FPath × Option FPath)) (reserved : List FPath),
      (∀ pr ∈ analyses, ∀ sg, pr.2 = some sg → goodName (nameP (cfg.root ++ sg))) →
      (∀ r ∈ (planPhase cfg fs analyses reserved).1.map PlanItem.final, r ∉ reserved) ∧
      ((planPhase cfg fs analyses reserved).1.map PlanItem.final).Pairwise (· ≠ ·) ∧
      (∀ r ∈ (planPhase cfg fs analyses reserved).1.map PlanItem.final,
        r ∉ allEntries fs) := by
  intro analyses
  induction analyses with
  | nil =>
    intro reserved _
    refine ⟨?_, ?_, ?_⟩ <;> simp [planPhase]
  | cons pr rest ih =>
    intro reserved hgood
    have hgood' : ∀ q ∈ rest, ∀ sg, q.2 = some sg → goodName (nameP (cfg.root ++ sg)) :=
      fun q hq => hgood q (List.mem_cons_of_mem _ hq)
    obtain ⟨source, osugg⟩ := pr
    cases osugg with
    | none =>
      rcases hres : planPhase cfg fs rest reserved with ⟨ps, k⟩
      have hih := ih reserved hgood'
      rw [hres] at hih
      simpa [planPhase, hres] using hih
    | some sugg =>
      cases hgf : getFinalDestination cfg source sugg with
      | error e =>
        rcases hres : planPhase cfg fs rest reserved with ⟨ps, k⟩
        have hih := ih reserved hgood'
        rw [hres] at hih
        simpa [planPhase, hgf, hres] using hih
      | ok d =>
        obtain ⟨hdval, hsne⟩ := getFinalDestination_ok hgf
        have hgname : goodName (nameP d) := by
          rw [hdval]
          exact hgood (source, some sugg) (List.mem_cons_self _ _) sugg rfl
        have hfresh := resolve_fresh fs reserved d hwf hgname
        set r := resolvePlanningConflicts fs reserved d with hr
        rcases hres : planPhase cfg fs rest (r :: reserved) with ⟨ps, k⟩
        have hih := ih (r :: reserved) hgood'
        rw [hres] at hih
        obtain ⟨ih1, ih2, ih3⟩ := hih
        have hgoal : planPhase cfg fs ((source, some sugg) :: rest) reserved
            = (⟨source, sugg, r⟩ :: ps, k) := by
          simp [planPhase, hgf, ← hr, hres]
        rw [hgoal]
        simp only [List.map_cons, List.mem_cons]
        refine ⟨?_, ?_, ?_⟩
        · intro x hx
          rcases hx with rfl | hx
          · exact hfresh.1
          · intro hxres
            exact ih1 x hx (List.mem_cons_of_mem _ hxres)
        · rw [List.pairwise_cons]
          refine ⟨?_, ih2⟩
          intro x hx heq
          exact ih1 x hx (by rw [← heq]; exact List.mem_cons_self _ _)
        · intro x hx
          rcases hx with rfl | hx
          · exact hfresh.2
          · exact ih3 x hx

/-!  ## Concrete fixtures used by the claim theorems -/

deriving instance DecidableEq for Except

def fsEmpty : FS := ⟨[], []⟩

def aDocPdf : FPath := [S ("a"), S ("doc.pdf")]

def aDoc2Pdf : FPath := [S ("a"), S ("doc2.pdf")]

/-- A snapshot holding an existing file `a/doc.pdf`. -/
def fsADoc : FS := ⟨[(aDocPdf, ⟨3, S ("h1")⟩)], [[S ("a")]]⟩

/-- Decidable form of the goodness requirement on one analysis pair. -/
def goodSuggestion (cfg : MoverCfg) (pr : FPath × Option FPath) : Prop :=
  match pr.2 with
  | some sg => goodName (nameP (cfg.root ++ sg))
  | none => True

instance (cfg : MoverCfg) (pr : FPath × Option FPath) :
    Decidable (goodSuggestion cfg pr) := by
  unfold goodSuggestion
  cases pr.2 <;> infer_instance

def cfgW : MoverCfg := ⟨[S ("o")], true⟩

def analysesW : List (FPath × Option FPath) :=
  [([S ("src"), S ("a.pdf")], some [S ("misc"), S ("doc.pdf")]),
   ([S ("src"), S ("b.pdf")], some [S ("misc"), S ("doc.pdf")])]

/-- The planning batch that defeats conflict detection: a reserved `misc/x.2`
followed by two suggestions `misc/x.` (empty suffix, stem ending in a dot). -/
def analysesX : List (FPath × Option FPath) :=
  [([S ("s"), S ("x.2")], some [S ("misc"), S ("x.2")]),
   ([S ("s"), S ("y.")], some [S ("misc"), S ("x.")]),
   ([S ("s"), S ("z.")], some [S ("misc"), S ("x.")])]

/-!  ## C1 -/

/-- C1 (amended): for every planning batch processed by
`FileOrganizer._execute_organization` whose candidate destinations have
well-behaved names (suffix nonempty, or stem not ending in a dot), after
conflict resolution the resolved final destination paths are pairwise
distinct and none equals a filesystem entry existing at resolution time;
planning reads but never writes the snapshot, so all resolution completes
before any filesystem mutation of the batch. -/
theorem c1_planning_batch_fresh (cfg : MoverCfg) (fs : FS)
    (analyses : List (FPath × Option FPath)) (hwf : WF fs)
    (hgood : ∀ pr ∈ analyses, goodSuggestion cfg pr) :
    ((planPhase cfg fs analyses []).1.map PlanItem.final).Nodup ∧
      ∀ r ∈ (planPhase cfg fs analyses []).1.map PlanItem.final,
        r ∉ allEntries fs := by
  have hgood' : ∀ pr ∈ analyses, ∀ sg, pr.2 = some sg →
      goodName (nameP (cfg.root ++ sg)) := by
    intro pr hpr sg hsg
    have := hgood pr hpr
    unfold goodSuggestion at this
    rw [hsg] at this
    exact this
  obtain ⟨_, h2, h3⟩ := planPhase_fresh cfg fs hwf analyses [] hgood'
  exact ⟨h2, h3⟩

theorem c1_witness :
    ((planPhase cfgW fsEmpty analysesW []).1.map PlanItem.final).Nodup ∧
      ∀ r ∈ (planPhase cfgW fsEmpty analysesW []).1.map PlanItem.final,
        r ∉ allEntries fsEmpty :=
  c1_planning_batch_fresh cfgW fsEmpty analysesW (by decide) (by decide)

/-- C1 counterexample: on the batch `analysesX` (all suggestions pass
validation; the disk is empty) the resolved finals are
`o/misc/x.2, o/misc/x., o/misc/x.2` — the first and third coincide, so the
resolved final paths of one planning batch are not pairwise distinct. -/
theorem c1_counterexample :
    (planPhase cfgW fsEmpty analysesX []).1.map PlanItem.final
      = [[S ("o"), S ("misc"), S ("x.2")],
         [S ("o"), S ("misc"), S ("x.")],
         [S ("o"), S ("misc"), S ("x.2")]] ∧
      ¬ ((planPhase cfgW fsEmpty analysesX []).1.map PlanItem.final).Nodup := by
  constructor
  · decide
  · decide

/-!  ## C2 -/

/-- The union of sequence numbers the resolver considers used for a
candidate: disk numbers (glob scan of the parent) and reserved-set numbers. -/
def usedNumbers (fs : FS) (reserved : List FPath) (dest : FPath) : List Nat :=
  diskNumbers fs (parentP dest) (pyStem (nameP dest)) (pySuffix (nameP dest))
    ++ plannedNumbers reserved (parentP dest) (pyStem (nameP dest)) (pySuffix (nameP dest))

/-- C2: `_resolve_planning_conflicts` returns the candidate unchanged exactly
when it is neither reserved nor on disk; otherwise it returns
`parent/stem<N>suffix` where `N` is the smallest integer `≥ 2` not among the
sequence numbers used on disk (glob `stem*suffix`, bare stem counting as 1) or
in the reserved set; and the two concrete examples of the specification hold:
`["a/doc.pdf", "a/doc.pdf"]` resolves to `["a/doc.pdf", "a/doc2.pdf"]`, and
against an existing `a/doc.pdf` a single suggestion `a/doc.pdf` resolves to
`a/doc2.pdf`. -/
theorem c2_resolver_spec (fs : FS) (reserved : List FPath) (dest : FPath) :
    (dest ∉ reserved ∧ ¬ pyExistsP fs dest →
      resolvePlanningConflicts fs reserved dest = dest) ∧
    (dest ∈ reserved ∨ pyExistsP fs dest →
      ∃ N, 2 ≤ N ∧ N ∉ usedNumbers fs reserved dest ∧
        (∀ m, 2 ≤ m → m < N → m ∈ usedNumbers fs reserved dest) ∧
        resolvePlanningConflicts fs reserved dest
          = parentP dest ++
              [pyStem (nameP dest) ++ natRepr N ++ pySuffix (nameP dest)]) ∧
    resolveBatch fsEmpty [aDocPdf, aDocPdf] = [aDocPdf, aDoc2Pdf] ∧
    resolvePlanningConflicts fsADoc [] aDocPdf = aDoc2Pdf := by
  refine ⟨?_, ?_, by decide, by decide⟩
  · intro h
    unfold resolvePlanningConflicts
    rw [if_pos h]
  · intro h
    have hneg : ¬ (dest ∉ reserved ∧ ¬ pyExistsP fs dest) := by
      rcases h with h | h
      · intro hcon; exact hcon.1 h
      · intro hcon; exact hcon.2 h
    unfold resolvePlanningConflicts
    rw [if_neg hneg]
    have hex : ∃ k, k < (usedNumbers fs reserved dest).length + 1 ∧
        (fun k => decide (k ∈ usedNumbers fs reserved dest)) (2 + k) = false := by
      obtain ⟨k, hk, hnot⟩ := exists_notMem_of_injective
        (usedNumbers fs reserved dest) (fun n => n) (fun a b hab => hab) 2
      exact ⟨k, hk, by simpa using hnot⟩
    obtain ⟨hfree, hge, hleast⟩ := searchFree_spec
      (fun k => decide (k ∈ usedNumbers fs reserved dest))
      ((usedNumbers fs reserved dest).length + 1) 2 hex
    refine ⟨searchFree (fun k => decide (k ∈ usedNumbers fs reserved dest)) 2
      ((usedNumbers fs reserved dest).length + 1), hge, by simpa using hfree,
      ?_, rfl⟩
    intro m hm1 hm2
    have := hleast m hm1 hm2
    simpa using this

theorem c2_witness :
    resolvePlanningConflicts fsEmpty [] aDocPdf = aDocPdf ∧
    (∃ N, 2 ≤ N ∧ N ∉ usedNumbers fsADoc [] aDocPdf ∧
      (∀ m, 2 ≤ m → m < N → m ∈ usedNumbers fsADoc [] aDocPdf) ∧
      resolvePlanningConflicts fsADoc [] aDocPdf
        = parentP aDocPdf ++
            [pyStem (nameP aDocPdf) ++ natRepr N ++ pySuffix (nameP aDocPdf)]) :=
  ⟨(c2_resolver_spec fsEmpty [] aDocPdf).1 (by decide),
   (c2_resolver_spec fsADoc [] aDocPdf).2.1 (by decide)⟩

/-!  ## C10 -/

/-- The renamed destination the claim describes for counter `N`: counter
between stem and suffix for dot-containing names, appended for
directory-style names. -/
def conflictName (dest : FPath) (N : Nat) : FPath :=
  if '.' ∈ nameP dest then
    parentP dest ++ [pyStem (nameP dest) ++ natRepr N ++ pySuffix (nameP dest)]
  else
    parentP dest ++ [nameP dest ++ natRepr N]

theorem pyExistsP_concat (fs : FS) (par : FPath) (n : Str) :
    pyExistsP fs (par ++ [n]) ↔ par ++ [n] ∈ allEntries fs := by
  unfold pyExistsP
  simp

/-- Closed form of the dotted/file branch of `_handle_conflicts`. -/
theorem handleConflicts_eq_file (fs : FS) (dest : FPath) (hne : pyExistsP fs dest)
    (hbranch : isFileP fs dest ∨ '.' ∈ nameP dest) :
    handleConflicts fs dest
      = parentP dest ++
          [pyStem (nameP dest) ++
            natRepr (searchFree
              (fun k => decide (pyExistsP fs (parentP dest ++
                [pyStem (nameP dest) ++ natRepr k ++ pySuffix (nameP dest)])))
              2 ((allEntries fs).length + 1)) ++
            pySuffix (nameP dest)] := by
  unfold handleConflicts
  rw [if_neg (fun h => h hne), if_pos hbranch]

/-- Closed form of the directory branch of `_handle_conflicts`. -/
theorem handleConflicts_eq_dir (fs : FS) (dest : FPath) (hne : pyExistsP fs dest)
    (hbranch : ¬ (isFileP fs dest ∨ '.' ∈ nameP dest)) :
    handleConflicts fs dest
      = parentP dest ++
          [nameP dest ++
            natRepr (searchFree
              (fun k => decide (pyExistsP fs (parentP dest ++
                [nameP dest ++ natRepr k])))
              2 ((allEntries fs).length + 1))] := by
  unfold handleConflicts
  rw [if_neg (fun h => h hne), if_neg hbranch]

/-- The searches of `_handle_conflicts` always terminate on a free name: the
probe loop with the stated fuel returns the least free counter `≥ 2`. -/
theorem probe_least_free (fs : FS) (parent : FPath) (mk : Nat → Str)
    (hinj : Function.Injective mk) :
    ¬ pyExistsP fs (parent ++
        [mk (searchFree (fun k => decide (pyExistsP fs (parent ++ [mk k]))) 2
          ((allEntries fs).length + 1))]) ∧
    2 ≤ searchFree (fun k => decide (pyExistsP fs (parent ++ [mk k]))) 2
        ((allEntries fs).length + 1) ∧
    ∀ m, 2 ≤ m →
      m < searchFree (fun k => decide (pyExistsP fs (parent ++ [mk k]))) 2
        ((allEntries fs).length + 1) →
      pyExistsP fs (parent ++ [mk m]) := by
  have hinj2 : Function.Injective (fun k => parent ++ [mk k] : Nat → FPath) := by
    intro a b hab
    simp only at hab
    have h1 : [mk a] = [mk b] := List.append_cancel_left hab
    have h2 : mk a = mk b := by simpa using h1
    exact hinj h2
  have hex : ∃ k, k < (allEntries fs).length + 1 ∧
      (fun k => decide (pyExistsP fs (parent ++ [mk k]))) (2 + k) = false := by
    obtain ⟨k, hk, hnot⟩ :=
      exists_notMem_of_injective (allEntries fs) (fun k => parent ++ [mk k]) hinj2 2
    refine ⟨k, hk, ?_⟩
    simp only [decide_eq_false_iff_not]
    rw [pyExistsP_concat]
    exact hnot
  obtain ⟨hfree, hge, hleast⟩ := searchFree_spec
    (fun k => decide (pyExistsP fs (parent ++ [mk k])))
    ((allEntries fs).length + 1) 2 hex
  refine ⟨by simpa using hfree, hge, ?_⟩
  intro m hm1 hm2
  have := hleast m hm1 hm2
  simpa using this

theorem stem_suffix_injective (s fx : Str) :
    Function.Injective (fun k => s ++ natRepr k ++ fx) := by
  intro a b hab
  simp only at hab
  have h2 : s ++ natRepr a = s ++ natRepr b := List.append_cancel_right hab
  exact natRepr_injective (List.append_cancel_left h2)

theorem name_append_injective (nm : Str) :
    Function.Injective (fun k => nm ++ natRepr k) := by
  intro a b hab
  simp only at hab
  exact natRepr_injective (List.append_cancel_left hab)

/-- C10: `_handle_conflicts` consults only the destination and the disk (the
reserved set is not a parameter of the definition): it returns the input
unchanged exactly when the input does not exist; otherwise it returns
`conflictName dest N` — counter between stem and suffix for dotted names,
appended for directory-style names — for the smallest `N ≥ 2` whose path does
not exist on disk; in every case the result is not an existing filesystem
entry at call time. -/
theorem c10_handle_conflicts_spec (fs : FS) (dest : FPath) :
    (¬ pyExistsP fs dest → handleConflicts fs dest = dest) ∧
    (pyExistsP fs dest →
      ∃ N, 2 ≤ N ∧ handleConflicts fs dest = conflictName dest N ∧
        ¬ pyExistsP fs (conflictName dest N) ∧
        ∀ m, 2 ≤ m → m < N → pyExistsP fs (conflictName dest m)) ∧
    handleConflicts fs dest ∉ allEntries fs := by
  by_cases hex : pyExistsP fs dest
  · have hmain : ∃ N, 2 ≤ N ∧ handleConflicts fs dest = conflictName dest N ∧
        ¬ pyExistsP fs (conflictName dest N) ∧
        ∀ m, 2 ≤ m → m < N → pyExistsP fs (conflictName dest m) := by
      by_cases hdot : '.' ∈ nameP dest
      · have heqn := handleConflicts_eq_file fs dest hex (Or.inr hdot)
        obtain ⟨hfree, hge, hleast⟩ := probe_least_free fs (parentP dest)
          (fun k => pyStem (nameP dest) ++ natRepr k ++ pySuffix (nameP dest))
          (stem_suffix_injective _ _)
        refine ⟨_, hge, ?_, ?_, ?_⟩
        · rw [heqn]
          unfold conflictName
          rw [if_pos hdot]
        · unfold conflictName
          rw [if_pos hdot]
          exact hfree
        · intro m hm1 hm2
          unfold conflictName
          rw [if_pos hdot]
          exact hleast m hm1 hm2
      · by_cases hfile : isFileP fs dest
        · have heqn := handleConflicts_eq_file fs dest hex (Or.inl hfile)
          obtain ⟨hstem, hsfx⟩ := pySuffix_of_no_dot hdot
          rw [hstem, hsfx] at heqn
          simp only [List.append_nil] at heqn
          obtain ⟨hfree, hge, hleast⟩ := probe_least_free fs (parentP dest)
            (fun k => nameP dest ++ natRepr k) (name_append_injective _)
          refine ⟨_, hge, ?_, ?_, ?_⟩
          · rw [heqn]
            unfold conflictName
            rw [if_neg hdot]
          · unfold conflictName
            rw [if_neg hdot]
            exact hfree
          · intro m hm1 hm2
            unfold conflictName
            rw [if_neg hdot]
            exact hleast m hm1 hm2
        · have hbranch : ¬ (isFileP fs dest ∨ '.' ∈ nameP dest) := by
            intro hcon
            rcases hcon with h | h
            · exact hfile h
            · exact hdot h
          have heqn := handleConflicts_eq_dir fs dest hex hbranch
          obtain ⟨hfree, hge, hleast⟩ := probe_least_free fs (parentP dest)
            (fun k => nameP dest ++ natRepr k) (name_append_injective _)
          refine ⟨_, hge, ?_, ?_, ?_⟩
          · rw [heqn]
            unfold conflictName
            rw [if_neg hdot]
          · unfold conflictName
            rw [if_neg hdot]
            exact hfree
          · intro m hm1 hm2
            unfold conflictName
            rw [if_neg hdot]
            exact hleast m hm1 hm2
    refine ⟨fun h => absurd hex h, fun _ => hmain, ?_⟩
    obtain ⟨N, _, heq, hnfree, _⟩ := hmain
    rw [heq]
    intro hmem
    apply hnfree
    right
    exact hmem
  · refine ⟨?_, fun h => absurd h hex, ?_⟩
    · intro _
      unfold handleConflicts
      rw [if_pos hex]
    · unfold handleConflicts
      rw [if_pos hex]
      intro hmem
      exact hex (Or.inr hmem)

theorem c10_witness :
    (∃ N, 2 ≤ N ∧ handleConflicts fsADoc aDocPdf = conflictName aDocPdf N ∧
      ¬ pyExistsP fsADoc (conflictName aDocPdf N) ∧
      ∀ m, 2 ≤ m → m < N → pyExistsP fsADoc (conflictName aDocPdf m)) ∧
    handleConflicts fsADoc aDocPdf ∉ allEntries fsADoc :=
  ⟨(c10_handle_conflicts_spec fsADoc aDocPdf).2.1 (by decide),
   (c10_handle_conflicts_spec fsADoc aDocPdf).2.2⟩

/-!  ## C9 -/

/-- C9: for every category whose declared subcategory list is empty
(`hidden`, `large`, `misc` in `sub_dirs_map`), `_validate_category` accepts
any second path component; in particular `hidden/anything/file.txt` passes
validation. -/
theorem c9_empty_subcategories_accept :
    (∀ cat sub rest, lookupSub subDirsMap cat = some [] →
      validateCategory (cat :: sub :: rest) = .ok ()) ∧
    lookupSub subDirsMap (S ("hidden")) = some [] ∧
    lookupSub subDirsMap (S ("large")) = some [] ∧
    lookupSub subDirsMap (S ("misc")) = some [] ∧
    validateCategory [S ("hidden"), S ("anything"), S ("file.txt")] = .ok () := by
  refine ⟨?_, by decide, by decide, by decide, by decide⟩
  intro cat sub rest h
  simp only [validateCategory, h]
  simp

theorem c9_witness :
    validateCategory (S ("large") :: S ("whatever") :: [S ("deep.txt")]) = .ok () :=
  c9_empty_subcategories_accept.1 (S ("large")) (S ("whatever")) [S ("deep.txt")]
    (by decide)

/-!  ## C6 -/

def srcTxt : FPath := [S ("s"), S ("f.txt")]

/-- A snapshot with one source file `s/f.txt` and the output root `o`. -/
def fsC6 : FS := ⟨[(srcTxt, ⟨1, S ("h")⟩)], [[S ("s")], [S ("o")]]⟩

theorem validateCategory_invalid_sub {cat sub : Str} {rest : List Str}
    {subs : List Str} (h : lookupSub subDirsMap cat = some subs)
    (hne : subs ≠ []) (hnot : sub ∉ subs) :
    validateCategory (cat :: sub :: rest)
      = .error (.runtimeError (msgInvalidSubcategory sub cat subs)) := by
  simp only [validateCategory, h]
  rw [if_pos ⟨hne, hnot⟩]

theorem validateCategory_invalid_cat {cat : Str} {rest : List Str}
    (h : lookupSub subDirsMap cat = none) :
    validateCategory (cat :: rest) = .error (.runtimeError (msgInvalidCategory cat)) := by
  simp only [validateCategory, h]

/-- An element of a concatenation sandwich is an infix. -/
theorem infix_sandwich (x l y : Str) : l <:+: x ++ l ++ y := ⟨x, y, rfl⟩

/-- C6 (amended): for every `organize_file` call whose source exists, a
suggested destination with an undeclared leading category is rejected naming
that category, and one whose second component is missing from a *non-empty*
declared subcategory set is rejected naming that subcategory — in both cases
with the snapshot unchanged (no filesystem mutation).  The two concrete
specification examples hold: `finance/invoices/2024/x.txt` is accepted under
`finance -> invoices, receipts`, and `finance/taxes/2024/x.txt` is rejected
naming `taxes`.  (Unamended, the claim is false for the declared-empty
subcategory sets; see the counterexample.) -/
theorem c6_category_validation (cfg : MoverCfg) (fs : FS) (xfer : Content → Content)
    (source : FPath) (hne : source ≠ []) (hex : pyExistsP fs source) :
    (∀ cat sub rest subs, lookupSub subDirsMap cat = some subs → subs ≠ [] →
      sub ∉ subs →
      organizeFile cfg fs xfer source (cat :: sub :: rest)
        = (fs, .error (.runtimeError (msgInvalidSubcategory sub cat subs))) ∧
      sub <:+: msgInvalidSubcategory sub cat subs) ∧
    (∀ cat rest, lookupSub subDirsMap cat = none →
      organizeFile cfg fs xfer source (cat :: rest)
        = (fs, .error (.runtimeError (msgInvalidCategory cat))) ∧
      cat <:+: msgInvalidCategory cat) ∧
    (organizeFile cfgW fsC6 id srcTxt
        [S ("finance"), S ("taxes"), S ("2024"), S ("x.txt")]).2
      = .error (.runtimeError (msgInvalidSubcategory (S ("taxes")) (S ("finance"))
          [S ("invoices"), S ("receipts")])) ∧
    (organizeFile cfgW fsC6 id srcTxt
        [S ("finance"), S ("invoices"), S ("2024"), S ("x.txt")]).2
      = .ok [S ("o"), S ("finance"), S ("invoices"), S ("2024"), S ("x.txt")] := by
  refine ⟨?_, ?_, by decide, by decide⟩
  · intro cat sub rest subs hlk hsne hnot
    constructor
    · unfold organizeFile
      rw [if_neg hne]
      rw [if_neg (by simp : ¬ (cat :: sub :: rest : FPath) = [])]
      rw [if_neg (fun h => h hex)]
      rw [validateCategory_invalid_sub hlk hsne hnot]
    · unfold msgInvalidSubcategory
      have : quoteC :: sub ++ [quoteC] ++ (S (" for category ")
          ++ quoteC :: cat ++ [quoteC] ++ S (". Valid subcategories: ")
          ++ pyListRepr subs)
          = [quoteC] ++ sub ++ ([quoteC] ++ (S (" for category ")
            ++ quoteC :: cat ++ [quoteC] ++ S (". Valid subcategories: ")
            ++ pyListRepr subs)) := by simp
      refine ⟨S ("Invalid subcategory ") ++ [quoteC],
        [quoteC] ++ S (" for category ") ++ quoteC :: cat ++ [quoteC]
          ++ S (". Valid subcategories: ") ++ pyListRepr subs, ?_⟩
      simp
  · intro cat rest hlk
    constructor
    · unfold organizeFile
      rw [if_neg hne]
      rw [if_neg (by simp : ¬ (cat :: rest : FPath) = [])]
      rw [if_neg (fun h => h hex)]
      rw [validateCategory_invalid_cat hlk]
    · unfold msgInvalidCategory
      refine ⟨S ("Invalid category ") ++ [quoteC],
        [quoteC] ++ S (". Valid categories: ")
          ++ pyListRepr (subDirsMap.map Prod.fst), ?_⟩
      simp

theorem c6_witness :
    organizeFile cfgW fsC6 id srcTxt
        (S ("finance") :: S ("taxes") :: [S ("2024"), S ("x.txt")])
      = (fsC6, .error (.runtimeError (msgInvalidSubcategory (S ("taxes"))
          (S ("finance")) [S ("invoices"), S ("receipts")]))) ∧
    S ("taxes") <:+: msgInvalidSubcategory (S ("taxes")) (S ("finance"))
        [S ("invoices"), S ("receipts")] :=
  (c6_category_validation cfgW fsC6 id srcTxt (by decide) (by decide)).1
    (S ("finance")) (S ("taxes")) [S ("2024"), S ("x.txt")]
    [S ("invoices"), S ("receipts")] (by decide) (by decide) (by decide)

/-- C6 counterexample: `hidden` declares the empty subcategory set, yet the
suggestion `hidden/anything/file.txt` — whose second component `anything` is
not in that (empty) declared set — is accepted and the file is organized, not
rejected. -/
theorem c6_counterexample :
    lookupSub subDirsMap (S ("hidden")) = some [] ∧
    S ("anything") ∉ ([] : List Str) ∧
    (organizeFile cfgW fsC6 id srcTxt
        [S ("hidden"), S ("anything"), S ("file.txt")]).2
      = .ok [S ("o"), S ("hidden"), S ("anything"), S ("file.txt")] := by
  refine ⟨by decide, by decide, by decide⟩

/-!  ## C4 -/

/-- C4: `undoLast()` on an empty log fails; on a log holding exactly one entry
for a successful move (destination exists, source does not) it moves the
destination back to the original source path, removes the entry from the
in-memory and persisted logs, and succeeds; an immediately following second
call fails because the log is then empty.  (Modelled from the spec: no audit
log exists under src/.) -/
theorem c4_undo_last (fs : FS) (e : AuditEntry)
    (hdst : pyExistsP fs e.destination) (hsrc : ¬ pyExistsP fs e.source) :
    (∀ persisted, undoLast ⟨fs, [], persisted⟩ = (false, ⟨fs, [], persisted⟩)) ∧
    undoLast ⟨fs, [e], [e]⟩
      = (true, ⟨moveBack fs e.destination e.source, [], []⟩) ∧
    (∀ c, (e.destination, c) ∈ fs.files →
      (e.source, c) ∈ (moveBack fs e.destination e.source).files) ∧
    undoLast (undoLast ⟨fs, [e], [e]⟩).2 = (false, (undoLast ⟨fs, [e], [e]⟩).2) := by
  have hstep : undoLast ⟨fs, [e], [e]⟩
      = (true, ⟨moveBack fs e.destination e.source, [], []⟩) := by
    unfold undoLast
    simp only [List.getLast?_singleton]
    rw [if_pos ⟨hdst, hsrc⟩]
    simp
  refine ⟨?_, hstep, ?_, ?_⟩
  · intro persisted
    unfold undoLast
    simp
  · intro c hc
    unfold moveBack
    apply List.mem_map.mpr
    refine ⟨(e.destination, c), hc, ?_⟩
    rw [if_pos (List.prefix_refl _)]
    unfold relocateUnder
    simp
  · rw [hstep]
    unfold undoLast
    simp

def fsC4 : FS :=
  ⟨[([S ("o"), S ("misc"), S ("a.pdf")], ⟨1, S ("h")⟩)], [[S ("o"), S ("misc")]]⟩

def entC4 : AuditEntry :=
  ⟨S ("2024-01-01T00:00:00"), [S ("s"), S ("a.pdf")],
    [S ("o"), S ("misc"), S ("a.pdf")], some (S ("h")), 1⟩

theorem c4_witness :
    (∀ persisted, undoLast ⟨fsC4, [], persisted⟩ = (false, ⟨fsC4, [], persisted⟩)) ∧
    undoLast ⟨fsC4, [entC4], [entC4]⟩
      = (true, ⟨moveBack fsC4 entC4.destination entC4.source, [], []⟩) ∧
    (∀ c, (entC4.destination, c) ∈ fsC4.files →
      (entC4.source, c) ∈ (moveBack fsC4 entC4.destination entC4.source).files) ∧
    undoLast (undoLast ⟨fsC4, [entC4], [entC4]⟩).2
      = (false, (undoLast ⟨fsC4, [entC4], [entC4]⟩).2) :=
  c4_undo_last fsC4 entC4 (by decide) (by decide)

/-!  ## C3 -/

def srcA : FPath := [S ("src"), S ("a.pdf")]

def srcB : FPath := [S ("src"), S ("b.pdf")]

def srcC : FPath := [S ("src"), S ("c.txt")]

/-- The three analyzed source files of the end-to-end scenario. -/
def fs3 : FS :=
  ⟨[(srcA, ⟨4, S ("h1")⟩), (srcB, ⟨5, S ("h2")⟩), (srcC, ⟨6, S ("h3")⟩)],
    [[S ("src")], [S ("o")]]⟩

def sugg3pdf : FPath := [S ("documents"), S ("pdf"), S ("2024"), S ("report.pdf")]

def sugg3txt : FPath := [S ("documents"), S ("pdf"), S ("2024"), S ("report.txt")]

def analyses3 : List (FPath × Option FPath) :=
  [(srcA, some sugg3pdf), (srcB, some sugg3pdf), (srcC, some sugg3txt)]

/-- C3 counterexample: on the exact scenario input the workflow does not skip
the third file — `.txt` to `.txt` is not an extension mismatch — so the run
reports three organized files and no skips, not `organized=2, skipped=1`. -/
theorem c3_counterexample :
    (executeOrganization cfgW id fs3 analyses3 true).organizedCount = 3 ∧
    (executeOrganization cfgW id fs3 analyses3 true).organizedCount ≠ 2 ∧
    (executeOrganization cfgW id fs3 analyses3 true).skippedCount = 0 := by
  refine ⟨by decide, by decide, by decide⟩

/-- C3 (amended): running the workflow on the 3 analyzed files with the stated
suggestions plans three valid moves resolved to `report.pdf`, `report2.pdf`
and `report.txt` (the third suggestion keeps its `.txt` extension, so it
passes validation rather than being skipped), executes all three, and reports
`organized_count = 3`, `total_count = 3` with no skipped files. -/
theorem c3_scenario :
    (planPhase cfgW fs3 analyses3 []).1.map PlanItem.final
      = [[S ("o"), S ("documents"), S ("pdf"), S ("2024"), S ("report.pdf")],
         [S ("o"), S ("documents"), S ("pdf"), S ("2024"), S ("report2.pdf")],
         [S ("o"), S ("documents"), S ("pdf"), S ("2024"), S ("report.txt")]] ∧
    (planPhase cfgW fs3 analyses3 []).2 = 0 ∧
    executeOrganization cfgW id fs3 analyses3 true
      = ⟨3, 3, 0, 0, (executeOrganization cfgW id fs3 analyses3 true).fs⟩ ∧
    isFileP (executeOrganization cfgW id fs3 analyses3 true).fs
      [S ("o"), S ("documents"), S ("pdf"), S ("2024"), S ("report.pdf")] ∧
    isFileP (executeOrganization cfgW id fs3 analyses3 true).fs
      [S ("o"), S ("documents"), S ("pdf"), S ("2024"), S ("report2.pdf")] ∧
    isFileP (executeOrganization cfgW id fs3 analyses3 true).fs
      [S ("o"), S ("documents"), S ("pdf"), S ("2024"), S ("report.txt")] := by
  refine ⟨by decide, by decide, by decide, by decide, by decide, by decide⟩

/-!  ## C8 -/

/-- `FileMover.copy` only ever adds filesystem entries: every file (with its
content) and every directory of the incoming snapshot survives in the
resulting snapshot, whatever the outcome. -/
theorem pyCopy_preserves (fs : FS) (xfer : Content → Content)
    (source destination : FPath) :
    (∀ e ∈ fs.files, e ∈ (pyCopy fs xfer source destination).1.files) ∧
    (∀ d ∈ fs.dirs, d ∈ (pyCopy fs xfer source destination).1.dirs) := by
  constructor
  · intro e he
    unfold pyCopy
    split
    · exact he
    · split
      · exact he
      · split
        · exact he
        · split
          · exact he
          · dsimp only
            split
            · split
              · exact List.mem_append_left _ he
              · exact List.mem_append_left _ he
            · split
              · exact List.mem_append_left _ he
              · exact List.mem_append_left _ he
  · intro d hd
    unfold pyCopy
    split
    · exact hd
    · split
      · exact hd
      · split
        · exact hd
        · split
          · exact hd
          · dsimp only
            split
            · split
              · refine List.mem_append_left _ ?_
                show d ∈ fs.dirs ++ _
                exact List.mem_append_left _ hd
              · refine List.mem_append_left _ ?_
                show d ∈ fs.dirs ++ _
                exact List.mem_append_left _ hd
            · split
              · show d ∈ fs.dirs ++ _
                exact List.mem_append_left _ hd
              · show d ∈ fs.dirs ++ _
                exact List.mem_append_left _ hd

theorem allEntries_mono_of_preserves {fs fs1 : FS}
    (hf : ∀ e ∈ fs.files, e ∈ fs1.files) (hd : ∀ d ∈ fs.dirs, d ∈ fs1.dirs) :
    ∀ p ∈ allEntries fs, p ∈ allEntries fs1 := by
  intro p hp
  unfold allEntries at hp ⊢
  rcases List.mem_append.mp hp with h | h
  · obtain ⟨e, he, rfl⟩ := List.mem_map.mp h
    exact List.mem_append_left _ (List.mem_map.mpr ⟨e, hf e he, rfl⟩)
  · exact List.mem_append_right _ (hd p h)

/-- C8: in copy mode (`copy_mode=True` at construction) `organize_file` never
deletes the source: every file of the snapshot — the source in particular —
survives with unchanged content, every directory survives, and whenever the
copy completes the source path still exists afterwards. -/
theorem c8_copy_mode_preserves_source (cfg : MoverCfg) (fs : FS)
    (xfer : Content → Content) (source suggested : FPath)
    (hmode : cfg.copyMode = true) :
    (∀ e ∈ fs.files, e ∈ (organizeFile cfg fs xfer source suggested).1.files) ∧
    (∀ d ∈ fs.dirs, d ∈ (organizeFile cfg fs xfer source suggested).1.dirs) ∧
    (∀ c, (source, c) ∈ fs.files →
      (source, c) ∈ (organizeFile cfg fs xfer source suggested).1.files) ∧
    (∀ final, (organizeFile cfg fs xfer source suggested).2 = .ok final →
      pyExistsP fs source →
      pyExistsP (organizeFile cfg fs xfer source suggested).1 source) := by
  have hmain : (∀ e ∈ fs.files, e ∈ (organizeFile cfg fs xfer source suggested).1.files) ∧
      (∀ d ∈ fs.dirs, d ∈ (organizeFile cfg fs xfer source suggested).1.dirs) := by
    unfold organizeFile
    constructor
    · intro e he
      split
      · exact he
      · split
        · exact he
        · split
          · exact he
          · split
            · exact he
            · split
              · exact he
              · exact (pyCopy_preserves fs xfer source (cfg.root ++ suggested)).1 e he
    · intro d hd
      split
      · exact hd
      · split
        · exact hd
        · split
          · exact hd
          · split
            · exact hd
            · split
              · exact hd
              · exact (pyCopy_preserves fs xfer source (cfg.root ++ suggested)).2 d hd
  obtain ⟨h1, h2⟩ := hmain
  refine ⟨h1, h2, fun c hc => h1 _ hc, ?_⟩
  intro final _ hex
  rcases hex with h0 | hmem
  · exact Or.inl h0
  · exact Or.inr (allEntries_mono_of_preserves h1 h2 source hmem)

theorem c8_witness :
    (∀ e ∈ fsC6.files,
      e ∈ (organizeFile cfgW fsC6 id srcTxt [S ("misc"), S ("f.txt")]).1.files) ∧
    (∀ d ∈ fsC6.dirs,
      d ∈ (organizeFile cfgW fsC6 id srcTxt [S ("misc"), S ("f.txt")]).1.dirs) ∧
    (∀ c, (srcTxt, c) ∈ fsC6.files →
      (srcTxt, c) ∈ (organizeFile cfgW fsC6 id srcTxt [S ("misc"), S ("f.txt")]).1.files) ∧
    (∀ final, (organizeFile cfgW fsC6 id srcTxt [S ("misc"), S ("f.txt")]).2 = .ok final →
      pyExistsP fsC6 srcTxt →
      pyExistsP (organizeFile cfgW fsC6 id srcTxt [S ("misc"), S ("f.txt")]).1 srcTxt) :=
  c8_copy_mode_preserves_source cfgW fsC6 id srcTxt [S ("misc"), S ("f.txt")] (by decide)

/-!  ## C7 -/

/-- In a well-formed snapshot, a plain file is never a proper path-prefix of
any entry: every ancestor of an entry is a directory. -/
theorem file_prefix_eq {fs : FS} (hwf : WF fs) {source : FPath}
    (hfile : isFileP fs source) :
    ∀ e ∈ allEntries fs, source <+: e → e = source := by
  have hs_not_dir : source ∉ fs.dirs := by
    obtain ⟨ent, hent, hfst⟩ := List.mem_map.mp hfile
    rw [← hfst]
    exact hwf.2.2.1 ent hent
  have hs_mem : source ∈ allEntries fs := List.mem_append_left _ hfile
  have hs_ne : source ≠ [] := hwf.1 _ hs_mem
  have key : ∀ n, ∀ e ∈ allEntries fs, e.length = n → source <+: e → e = source := by
    intro n
    induction n using Nat.strong_induction_on with
    | _ n ih =>
      intro e he hlen hpre
      by_cases heq : e = source
      · exact heq
      · exfalso
        have hproper : source.length < e.length := by
          rcases Nat.lt_or_ge source.length e.length with h | h
          · exact h
          · exact absurd (hpre.eq_of_length_le h).symm heq
        obtain ⟨t, rfl⟩ := hpre
        have ht_ne : t ≠ [] := by
          intro hnil
          subst hnil
          simp at hproper
        have hparent : parentP (source ++ t) = source ++ t.dropLast := by
          unfold parentP
          exact List.dropLast_append_of_ne_nil source ht_ne
        rcases hwf.2.1 _ he with h0 | hdir
        · rw [hparent] at h0
          have : source = [] := by
            cases source with
            | nil => rfl
            | cons a l => simp at h0
          exact hs_ne this
        · have hmem2 : parentP (source ++ t) ∈ allEntries fs :=
            List.mem_append_right _ hdir
          have hlt : (parentP (source ++ t)).length < n := by
            rw [hparent]
            subst hlen
            simp only [List.length_append]
            have : t.dropLast.length = t.length - 1 := List.length_dropLast t
            have ht_pos : 0 < t.length := List.length_pos.mpr ht_ne
            omega
          have heqp := ih _ hlt _ hmem2 rfl
            (by rw [hparent]; exact List.prefix_append _ _)
          rw [heqp] at hdir
          exact hs_not_dir hdir
  intro e he hpre
  exact key e.length e he rfl hpre

/-- Unravelling a successful `FileMover.move`: the validations passed and the
result is the conflict-resolved destination with the tree physically moved. -/
theorem pyMove_ok_spec {fs : FS} {xfer : Content → Content}
    {source destination : FPath} {fs1 : FS} {final : FPath}
    (h : pyMove fs xfer source destination = (fs1, .ok final)) :
    source ≠ [] ∧ destination ≠ [] ∧ pyExistsP fs source ∧
    mkdirOk fs (parentP destination) ∧
    final = handleConflicts (mkdirParents fs (parentP destination)) destination ∧
    fs1 = moveTree (mkdirParents fs (parentP destination)) xfer source final := by
  unfold pyMove at h
  split at h
  · simp at h
  · split at h
    · simp at h
    · split at h
      · simp at h
      · split at h
        · simp at h
        · dsimp only at h
          split at h
          · simp at h
          · rename_i hsrc_ne hdst_ne hex hmk _
            have h1 : moveTree (mkdirParents fs (parentP destination)) xfer source
                (handleConflicts (mkdirParents fs (parentP destination)) destination)
                = fs1 := congrArg Prod.fst h
            have h2 := congrArg Prod.snd h
            simp only [Except.ok.injEq] at h2
            refine ⟨hsrc_ne, hdst_ne, not_not.mp hex, not_not.mp hmk, h2.symm, ?_⟩
            rw [← h1, ← h2]

/-- Standalone freshness of `_handle_conflicts` results (shared helper). -/
theorem handleConflicts_notMem (fs : FS) (dest : FPath) :
    handleConflicts fs dest ∉ allEntries fs := by
  by_cases hex : pyExistsP fs dest
  · by_cases hbranch : isFileP fs dest ∨ '.' ∈ nameP dest
    · rw [handleConflicts_eq_file fs dest hex hbranch]
      obtain ⟨hfree, _, _⟩ := probe_least_free fs (parentP dest)
        (fun k => pyStem (nameP dest) ++ natRepr k ++ pySuffix (nameP dest))
        (stem_suffix_injective _ _)
      intro hmem
      exact hfree (Or.inr hmem)
    · rw [handleConflicts_eq_dir fs dest hex hbranch]
      obtain ⟨hfree, _, _⟩ := probe_least_free fs (parentP dest)
        (fun k => nameP dest ++ natRepr k) (name_append_injective _)
      intro hmem
      exact hfree (Or.inr hmem)
  · unfold handleConflicts
    rw [if_pos hex]
    intro hmem
    exact hex (Or.inr hmem)

theorem relocateUnder_self (src dst : FPath) : relocateUnder src dst src = dst := by
  unfold relocateUnder
  simp

theorem prefix_mem_prefixesOf {q p : FPath} (hpre : q <+: p) (hne : q ≠ []) :
    q ∈ prefixesOf p := by
  unfold prefixesOf
  apply List.mem_map.mpr
  have hq_pos : 0 < q.length := List.length_pos.mpr hne
  have hq_le : q.length ≤ p.length := hpre.length_le
  refine ⟨q.length - 1, ?_, ?_⟩
  · apply List.mem_range.mpr
    omega
  · have : q.length - 1 + 1 = q.length := by omega
    rw [this]
    exact (List.prefix_iff_eq_take.mp hpre).symm

/-- After a successful move of a plain file, the source path no longer
exists. -/
theorem moved_source_gone {fs : FS} {xfer : Content → Content}
    {source destination : FPath} {fs1 : FS} {final : FPath}
    (hwf : WF fs) (hfile : isFileP fs source)
    (h : pyMove fs xfer source destination = (fs1, .ok final)) :
    ¬ pyExistsP fs1 source := by
  obtain ⟨hsrc_ne, _, _, hmk, hfinal, hfs1⟩ := pyMove_ok_spec h
  have hs_not_dir : source ∉ fs.dirs := by
    obtain ⟨ent, hent, hfst⟩ := List.mem_map.mp hfile
    rw [← hfst]
    exact hwf.2.2.1 ent hent
  have hsrc_mem_fs : source ∈ allEntries fs := List.mem_append_left _ hfile
  have hsrc_mem_fsm : source ∈ allEntries (mkdirParents fs (parentP destination)) := by
    unfold allEntries mkdirParents at *
    rcases List.mem_append.mp hsrc_mem_fs with hm | hm
    · exact List.mem_append_left _ hm
    · exact List.mem_append_right _ (List.mem_append_left _ hm)
  have hfinal_fresh : final ∉ allEntries (mkdirParents fs (parentP destination)) := by
    rw [hfinal]
    exact handleConflicts_notMem _ _
  have hfinal_ne_src : final ≠ source := by
    intro heq
    rw [heq] at hfinal_fresh
    exact hfinal_fresh hsrc_mem_fsm
  rw [hfs1]
  intro hexists
  rcases hexists with h0 | hmem
  · exact hsrc_ne h0
  · unfold allEntries moveTree mkdirParents at hmem
    dsimp only at hmem
    rcases List.mem_append.mp hmem with hf | hd
    · rw [List.map_map] at hf
      obtain ⟨e, he, hge⟩ := List.mem_map.mp hf
      by_cases hpre : source <+: e.1
      · have he_entry : e.1 ∈ allEntries fs :=
          List.mem_append_left _ (List.mem_map.mpr ⟨e, he, rfl⟩)
        have he_src : e.1 = source := file_prefix_eq hwf hfile e.1 he_entry hpre
        simp only [Function.comp_apply, if_pos hpre] at hge
        rw [he_src, relocateUnder_self] at hge
        exact hfinal_ne_src hge
      · simp only [Function.comp_apply, if_neg hpre] at hge
        exact hpre (hge ▸ List.prefix_refl _)
    · obtain ⟨d, hd2, hgd⟩ := List.mem_map.mp hd
      by_cases hpre : source <+: d
      · rcases List.mem_append.mp hd2 with hd_fs | hd_add
        · have hd_entry : d ∈ allEntries fs := List.mem_append_right _ hd_fs
          have : d = source := file_prefix_eq hwf hfile d hd_entry hpre
          rw [this] at hd_fs
          exact hs_not_dir hd_fs
        · have hd_pref : d ∈ prefixesOf (parentP destination) :=
            List.mem_of_mem_filter hd_add
          unfold prefixesOf at hd_pref
          obtain ⟨i, hi, hdi⟩ := List.mem_map.mp hd_pref
          have hd_prefix_p : d <+: parentP destination := by
            rw [← hdi]
            exact List.take_prefix _ _
          have hsrc_prefix_p : source <+: parentP destination :=
            hpre.trans hd_prefix_p
          have hsrc_in : source ∈ prefixesOf (parentP destination) :=
            prefix_mem_prefixesOf hsrc_prefix_p hsrc_ne
          exact (hmk source hsrc_in) hfile
      · rw [if_neg hpre] at hgd
        exact hpre (hgd ▸ List.prefix_refl _)

/-- Unravelling a successful move-mode `organize_file` call. -/
theorem organizeFile_move_ok {cfg : MoverCfg} {fs fs1 : FS}
    {xfer : Content → Content} {source suggested final : FPath}
    (hmode : cfg.copyMode = false)
    (hrun : organizeFile cfg fs xfer source suggested = (fs1, .ok final)) :
    source ≠ [] ∧ suggested ≠ [] ∧
    pyMove fs xfer source (cfg.root ++ suggested) = (fs1, .ok final) := by
  unfold organizeFile at hrun
  split at hrun
  · simp at hrun
  · split at hrun
    · simp at hrun
    · split at hrun
      · simp at hrun
      · split at hrun
        · simp at hrun
        · split at hrun
          · simp at hrun
          · rename_i hsrc hsugg hex x1 a1 heq1 x2 a2 heq2
            dsimp only at hrun
            rw [hmode] at hrun
            rw [if_neg (by decide : ¬ (false = true))] at hrun
            exact ⟨hsrc, hsugg, hrun⟩

def srcPdf : FPath := [S ("s"), S ("a.pdf")]

def fsC7 : FS := ⟨[(srcPdf, ⟨1, S ("h")⟩)], [[S ("s")], [S ("o")]]⟩

def suggC7 : FPath := [S ("misc"), S ("a.pdf")]

/-- The move-mode configuration. -/
def cfgM : MoverCfg := ⟨[S ("o")], false⟩

/-- C7 (amended): in move mode (`copy_mode=False`), calling `organize_file` a
second time with the same `(source, destination)` arguments after a successful
first call fails at the initial source-existence validation with a
`FileNotFoundError` (`NotFoundError` in the spec's taxonomy), before any
further filesystem mutation — the returned snapshot is unchanged.  (In the
default copy mode the source still exists, so a second call succeeds instead;
see the counterexample.) -/
theorem c7_move_mode_second_call (cfg : MoverCfg) (fs : FS)
    (xfer : Content → Content) (source suggested : FPath) (fs1 : FS)
    (final : FPath) (hmode : cfg.copyMode = false) (hwf : WF fs)
    (hfile : isFileP fs source)
    (hrun : organizeFile cfg fs xfer source suggested = (fs1, .ok final)) :
    organizeFile cfg fs1 xfer source suggested
      = (fs1, .error (.fileNotFound
          (S ("Source file does not exist: ") ++ renderPath source))) := by
  obtain ⟨hsrc_ne, hsugg_ne, hmove⟩ := organizeFile_move_ok hmode hrun
  have hgone : ¬ pyExistsP fs1 source := moved_source_gone hwf hfile hmove
  unfold organizeFile
  rw [if_neg hsrc_ne, if_neg hsugg_ne, if_pos hgone]

theorem c7_witness :
    organizeFile cfgM
        (organizeFile cfgM fsC7 id srcPdf suggC7).1 id srcPdf suggC7
      = ((organizeFile cfgM fsC7 id srcPdf suggC7).1,
          .error (.fileNotFound
            (S ("Source file does not exist: ") ++ renderPath srcPdf))) := by
  have hrun : organizeFile cfgM fsC7 id srcPdf suggC7
      = ((organizeFile cfgM fsC7 id srcPdf suggC7).1,
          .ok [S ("o"), S ("misc"), S ("a.pdf")]) := by decide
  exact c7_move_mode_second_call cfgM fsC7 id srcPdf suggC7
    (organizeFile cfgM fsC7 id srcPdf suggC7).1 [S ("o"), S ("misc"), S ("a.pdf")]
    (by decide) (by decide) (by decide) hrun

/-- C7 counterexample: with the default copy mode, after a successful first
call the source still exists, and a second identical call succeeds with the
suffixed destination `o/misc/a2.pdf` instead of failing with
`FileNotFoundError`. -/
theorem c7_counterexample :
    cfgW.copyMode = true ∧
    (organizeFile cfgW fsC7 id srcPdf suggC7).2
      = .ok [S ("o"), S ("misc"), S ("a.pdf")] ∧
    (organizeFile cfgW (organizeFile cfgW fsC7 id srcPdf suggC7).1
        id srcPdf suggC7).2
      = .ok [S ("o"), S ("misc"), S ("a2.pdf")] := by
  refine ⟨by decide, by decide, by decide⟩

/-!  ## C5 -/

/-- Unique-key lookup: with nodup file paths, membership determines the
entry. -/
theorem files_key_unique {fs : FS} (hwf : WF fs) {e1 e2 : FPath × Content}
    (h1 : e1 ∈ fs.files) (h2 : e2 ∈ fs.files) (heq : e1.1 = e2.1) : e1 = e2 :=
  List.inj_on_of_nodup_map hwf.2.2.2 h1 h2 heq

/-- `getContent` returning a value pins down the (unique) file entry. -/
theorem getContent_mem {fs : FS} {p : FPath} {c : Content}
    (h : getContent fs p = some c) : (p, c) ∈ fs.files := by
  unfold getContent at h
  cases hf : fs.files.find? (fun e => decide (e.1 = p)) with
  | none => rw [hf] at h; cases h
  | some ent =>
    rw [hf] at h
    simp only [Option.map_some', Option.some.injEq] at h
    have hpred := List.find?_some hf
    simp only [decide_eq_true_eq] at hpred
    have hmem := List.mem_of_find?_eq_some hf
    obtain ⟨a, b⟩ := ent
    have ha : a = p := hpred
    have hb : b = c := h
    subst ha
    subst hb
    exact hmem

theorem isFileP_of_mem {fs : FS} {p : FPath} {c : Content}
    (h : (p, c) ∈ fs.files) : isFileP fs p :=
  List.mem_map.mpr ⟨(p, c), h, rfl⟩

/-- Both rendered paths occur verbatim in the wrapper message of a failed
move/copy. -/
theorem failMsg_contains_paths (verb : Str) (src dst : FPath) (inner : Str) :
    renderPath src <:+: failMsg verb src dst inner ∧
      renderPath dst <:+: failMsg verb src dst inner := by
  unfold failMsg
  constructor
  · refine ⟨S ("Failed to ") ++ verb ++ [Char.ofNat 32],
      S (" to ") ++ renderPath dst ++ S (": ") ++ inner, ?_⟩
    simp
  · refine ⟨S ("Failed to ") ++ verb ++ [Char.ofNat 32] ++ renderPath src
      ++ S (" to "), S (": ") ++ inner, ?_⟩
    simp

theorem source_mem_allEntries_mkdir (fs : FS) (p : FPath) {source : FPath}
    (h : source ∈ allEntries fs) : source ∈ allEntries (mkdirParents fs p) := by
  unfold allEntries mkdirParents at *
  rcases List.mem_append.mp h with hm | hm
  · exact List.mem_append_left _ hm
  · exact List.mem_append_right _ (List.mem_append_left _ hm)

/-- The corrupted-move behaviour of `FileMover.move`: the transfer happens,
verification raises, the wrapper reports both paths, the corrupted data stays
at the destination and the source is gone. -/
theorem pyMove_hash_mismatch (fs : FS) (xfer : Content → Content)
    (source destination : FPath) (c : Content)
    (hwf : WF fs) (hc : getContent fs source = some c)
    (hsize : c.size < hashCeiling) (hh : c.hash ≠ [])
    (hcorrupt : (xfer c).hash ≠ c.hash)
    (hsrc_ne : source ≠ []) (hdst_ne : destination ≠ [])
    (hmk : mkdirOk fs (parentP destination)) :
    pyMove fs xfer source destination
      = (moveTree (mkdirParents fs (parentP destination)) xfer source
          (handleConflicts (mkdirParents fs (parentP destination)) destination),
         .error (.runtimeError (failMsg (S ("move")) source destination
           (S ("File hash mismatch after move!"))))) ∧
    (handleConflicts (mkdirParents fs (parentP destination)) destination, xfer c)
      ∈ (moveTree (mkdirParents fs (parentP destination)) xfer source
          (handleConflicts (mkdirParents fs (parentP destination)) destination)).files ∧
    getContent (moveTree (mkdirParents fs (parentP destination)) xfer source
        (handleConflicts (mkdirParents fs (parentP destination)) destination))
      source = none := by
  have hment : (source, c) ∈ fs.files := getContent_mem hc
  have hfile : isFileP fs source := isFileP_of_mem hment
  have hex : pyExistsP fs source := Or.inr (List.mem_append_left _ hfile)
  have hfinal_fresh :
      handleConflicts (mkdirParents fs (parentP destination)) destination
        ∉ allEntries (mkdirParents fs (parentP destination)) :=
    handleConflicts_notMem _ _
  have hsrc_mem_fsm : source ∈ allEntries (mkdirParents fs (parentP destination)) :=
    source_mem_allEntries_mkdir fs _ (List.mem_append_left _ hfile)
  have hfinal_ne_src :
      handleConflicts (mkdirParents fs (parentP destination)) destination ≠ source := by
    intro heq
    rw [heq] at hfinal_fresh
    exact hfinal_fresh hsrc_mem_fsm
  have hg_src : (handleConflicts (mkdirParents fs (parentP destination)) destination,
      xfer c) ∈ (moveTree (mkdirParents fs (parentP destination)) xfer source
        (handleConflicts (mkdirParents fs (parentP destination)) destination)).files := by
    unfold moveTree
    apply List.mem_map.mpr
    refine ⟨(source, c), hment, ?_⟩
    rw [if_pos (List.prefix_refl source)]
    rw [relocateUnder_self]
  have key : ∀ e ∈ (moveTree (mkdirParents fs (parentP destination)) xfer source
      (handleConflicts (mkdirParents fs (parentP destination)) destination)).files,
      e.1 = handleConflicts (mkdirParents fs (parentP destination)) destination →
      e = (handleConflicts (mkdirParents fs (parentP destination)) destination,
        xfer c) := by
    intro e he heq
    unfold moveTree at he
    obtain ⟨e0, he0, hge⟩ := List.mem_map.mp he
    by_cases hpre : source <+: e0.1
    · have he0_entry : e0.1 ∈ allEntries fs :=
        List.mem_append_left _ (List.mem_map.mpr ⟨e0, he0, rfl⟩)
      have he0_src : e0.1 = source := file_prefix_eq hwf hfile e0.1 he0_entry hpre
      have he0_eq : e0 = (source, c) :=
        files_key_unique hwf he0 hment (by rw [he0_src])
      rw [if_pos hpre] at hge
      rw [he0_eq] at hge
      simp only [relocateUnder_self] at hge
      exact hge.symm
    · rw [if_neg hpre] at hge
      rw [← hge] at heq
      have he0_entry : e0.1 ∈ allEntries (mkdirParents fs (parentP destination)) :=
        List.mem_append_left _ (List.mem_map.mpr ⟨e0, he0, rfl⟩)
      rw [heq] at he0_entry
      exact absurd he0_entry hfinal_fresh
  have key2 : ∀ e ∈ (moveTree (mkdirParents fs (parentP destination)) xfer source
      (handleConflicts (mkdirParents fs (parentP destination)) destination)).files,
      e.1 ≠ source := by
    intro e he
    unfold moveTree at he
    obtain ⟨e0, he0, hge⟩ := List.mem_map.mp he
    by_cases hpre : source <+: e0.1
    · rw [if_pos hpre] at hge
      rw [← hge]
      have he0_entry : e0.1 ∈ allEntries fs :=
        List.mem_append_left _ (List.mem_map.mpr ⟨e0, he0, rfl⟩)
      have he0_src : e0.1 = source := file_prefix_eq hwf hfile e0.1 he0_entry hpre
      rw [he0_src, relocateUnder_self]
      exact hfinal_ne_src
    · rw [if_neg hpre] at hge
      rw [← hge]
      intro heq2
      exact hpre (heq2 ▸ List.prefix_refl _)
  have hgc_final : getContent (moveTree (mkdirParents fs (parentP destination)) xfer
      source (handleConflicts (mkdirParents fs (parentP destination)) destination))
      (handleConflicts (mkdirParents fs (parentP destination)) destination)
      = some (xfer c) := by
    unfold getContent
    cases hf : (moveTree (mkdirParents fs (parentP destination)) xfer source
        (handleConflicts (mkdirParents fs (parentP destination)) destination)).files.find?
        (fun e => decide (e.1 = handleConflicts (mkdirParents fs (parentP destination))
          destination)) with
    | none =>
      exfalso
      have := List.find?_eq_none.mp hf _ hg_src
      simp at this
    | some ent =>
      have hpred := List.find?_some hf
      simp only [decide_eq_true_eq] at hpred
      have hmem := List.mem_of_find?_eq_some hf
      rw [key ent hmem hpred]
      rfl
  have hgc_src : getContent (moveTree (mkdirParents fs (parentP destination)) xfer
      source (handleConflicts (mkdirParents fs (parentP destination)) destination))
      source = none := by
    unfold getContent
    rw [List.find?_eq_none.mpr]
    · rfl
    · intro e he
      simp only [decide_eq_true_eq]
      exact key2 e he
  have hcap : captureHash (mkdirParents fs (parentP destination)) source
      = some c.hash := by
    unfold captureHash
    have hgc : getContent (mkdirParents fs (parentP destination)) source = some c := hc
    simp only [hgc]
    rw [if_pos hsize]
  have hverify : verifyFail (some c.hash)
      (moveTree (mkdirParents fs (parentP destination)) xfer source
        (handleConflicts (mkdirParents fs (parentP destination)) destination))
      (handleConflicts (mkdirParents fs (parentP destination)) destination) = true := by
    unfold verifyFail
    rw [hgc_final]
    simp [hh, hcorrupt, isFileP_of_mem hg_src]
  refine ⟨?_, hg_src, hgc_src⟩
  unfold pyMove
  rw [if_neg hsrc_ne, if_neg hdst_ne, if_neg (not_not_intro hex),
    if_neg (not_not_intro hmk)]
  dsimp only
  rw [hcap, if_pos hverify]

/-- The corrupted-copy behaviour of `FileMover.copy`: the copy happens,
verification raises, the wrapper reports both paths, the corrupted copy stays
at the destination and the source (with its original content) is untouched. -/
theorem pyCopy_hash_mismatch (fs : FS) (xfer : Content → Content)
    (source destination : FPath) (c : Content)
    (hwf : WF fs) (hc : getContent fs source = some c)
    (hsize : c.size < hashCeiling) (hh : c.hash ≠ [])
    (hcorrupt : (xfer c).hash ≠ c.hash)
    (hsrc_ne : source ≠ []) (hdst_ne : destination ≠ [])
    (hmk : mkdirOk fs (parentP destination)) :
    pyCopy fs xfer source destination
      = (⟨(mkdirParents fs (parentP destination)).files
            ++ [(handleConflicts (mkdirParents fs (parentP destination)) destination,
                xfer c)],
          (mkdirParents fs (parentP destination)).dirs⟩,
         .error (.runtimeError (failMsg (S ("copy")) source destination
           (S ("File hash mismatch after copy!"))))) ∧
    (handleConflicts (mkdirParents fs (parentP destination)) destination, xfer c)
      ∈ (mkdirParents fs (parentP destination)).files
          ++ [(handleConflicts (mkdirParents fs (parentP destination)) destination,
              xfer c)] ∧
    (source, c) ∈ (mkdirParents fs (parentP destination)).files
          ++ [(handleConflicts (mkdirParents fs (parentP destination)) destination,
              xfer c)] := by
  have hment : (source, c) ∈ fs.files := getContent_mem hc
  have hfile : isFileP fs source := isFileP_of_mem hment
  have hex : pyExistsP fs source := Or.inr (List.mem_append_left _ hfile)
  have hs_not_dir : source ∉ fs.dirs := by
    obtain ⟨ent, hent, hfst⟩ := List.mem_map.mp hfile
    rw [← hfst]
    exact hwf.2.2.1 ent hent
  have hfinal_fresh :
      handleConflicts (mkdirParents fs (parentP destination)) destination
        ∉ allEntries (mkdirParents fs (parentP destination)) :=
    handleConflicts_notMem _ _
  have hnotdir : ¬ isDirP (mkdirParents fs (parentP destination)) source := by
    intro h
    rcases h with h0 | hdirs
    · exact hsrc_ne h0
    · unfold mkdirParents at hdirs
      rcases List.mem_append.mp hdirs with hm | hm
      · exact hs_not_dir hm
      · have : source ∈ prefixesOf (parentP destination) :=
          List.mem_of_mem_filter hm
        exact (hmk source this) hfile
  have hmem_new : (handleConflicts (mkdirParents fs (parentP destination)) destination,
      xfer c) ∈ (mkdirParents fs (parentP destination)).files
        ++ [(handleConflicts (mkdirParents fs (parentP destination)) destination,
            xfer c)] :=
    List.mem_append_right _ (List.mem_cons_self _ _)
  have hmem_src : (source, c) ∈ (mkdirParents fs (parentP destination)).files
        ++ [(handleConflicts (mkdirParents fs (parentP destination)) destination,
            xfer c)] :=
    List.mem_append_left _ hment
  have hgc_final : getContent
      (⟨(mkdirParents fs (parentP destination)).files
          ++ [(handleConflicts (mkdirParents fs (parentP destination)) destination,
              xfer c)],
        (mkdirParents fs (parentP destination)).dirs⟩ : FS)
      (handleConflicts (mkdirParents fs (parentP destination)) destination)
      = some (xfer c) := by
    unfold getContent
    dsimp only
    rw [List.find?_append]
    have hnone : (mkdirParents fs (parentP destination)).files.find?
        (fun e => decide (e.1 = handleConflicts (mkdirParents fs (parentP destination))
          destination)) = none := by
      rw [List.find?_eq_none]
      intro e he
      simp only [decide_eq_true_eq]
      intro heq
      apply hfinal_fresh
      rw [← heq]
      exact List.mem_append_left _ (List.mem_map.mpr ⟨e, he, rfl⟩)
    rw [hnone]
    simp
  have hcap : captureHash (mkdirParents fs (parentP destination)) source
      = some c.hash := by
    unfold captureHash
    have hgc : getContent (mkdirParents fs (parentP destination)) source = some c := hc
    simp only [hgc]
    rw [if_pos hsize]
  have hverify : verifyFail (some c.hash)
      (⟨(mkdirParents fs (parentP destination)).files
          ++ [(handleConflicts (mkdirParents fs (parentP destination)) destination,
              xfer c)],
        (mkdirParents fs (parentP destination)).dirs⟩ : FS)
      (handleConflicts (mkdirParents fs (parentP destination)) destination) = true := by
    unfold verifyFail
    rw [hgc_final]
    have hisfile : isFileP
        (⟨(mkdirParents fs (parentP destination)).files
            ++ [(handleConflicts (mkdirParents fs (parentP destination)) destination,
                xfer c)],
          (mkdirParents fs (parentP destination)).dirs⟩ : FS)
        (handleConflicts (mkdirParents fs (parentP destination)) destination) :=
      List.mem_map.mpr ⟨_, hmem_new, rfl⟩
    simp [hh, hcorrupt, hisfile]
  refine ⟨?_, hmem_new, hmem_src⟩
  unfold pyCopy
  rw [if_neg hsrc_ne, if_neg hdst_ne, if_neg (not_not_intro hex),
    if_neg (not_not_intro hmk)]
  dsimp only
  rw [if_neg hnotdir]
  have hgc : getContent (mkdirParents fs (parentP destination)) source = some c := hc
  simp only [hgc, Option.getD_some]
  rw [hcap, if_pos hverify]

/-- C5 (amended): for every transfer (move or copy) of a plain file below the
100 MB checksum ceiling whose destination content hashes differently from the
source hash captured before the transfer, the operation fails with a
`RuntimeError` (not a dedicated `DataIntegrityError` class) whose wrapper
message reports both paths — but not the digests (see the counterexample) —
and the already-transferred data is left in place at the destination with no
automatic rollback: after a move the corrupted file sits at the final
destination and the source is gone; after a copy the corrupted file sits at
the final destination and the source entry is untouched. -/
theorem c5_checksum_mismatch (fs : FS) (xfer : Content → Content)
    (source destination : FPath) (c : Content)
    (hwf : WF fs) (hc : getContent fs source = some c)
    (hsize : c.size < hashCeiling) (hh : c.hash ≠ [])
    (hcorrupt : (xfer c).hash ≠ c.hash)
    (hsrc_ne : source ≠ []) (hdst_ne : destination ≠ [])
    (hmk : mkdirOk fs (parentP destination)) :
    pyMove fs xfer source destination
      = (moveTree (mkdirParents fs (parentP destination)) xfer source
          (handleConflicts (mkdirParents fs (parentP destination)) destination),
         .error (.runtimeError (failMsg (S ("move")) source destination
           (S ("File hash mismatch after move!"))))) ∧
    renderPath source <:+:
      failMsg (S ("move")) source destination (S ("File hash mismatch after move!")) ∧
    renderPath destination <:+:
      failMsg (S ("move")) source destination (S ("File hash mismatch after move!")) ∧
    (handleConflicts (mkdirParents fs (parentP destination)) destination, xfer c)
      ∈ (moveTree (mkdirParents fs (parentP destination)) xfer source
          (handleConflicts (mkdirParents fs (parentP destination)) destination)).files ∧
    getContent (moveTree (mkdirParents fs (parentP destination)) xfer source
        (handleConflicts (mkdirParents fs (parentP destination)) destination))
      source = none ∧
    pyCopy fs xfer source destination
      = (⟨(mkdirParents fs (parentP destination)).files
            ++ [(handleConflicts (mkdirParents fs (parentP destination)) destination,
                xfer c)],
          (mkdirParents fs (parentP destination)).dirs⟩,
         .error (.runtimeError (failMsg (S ("copy")) source destination
           (S ("File hash mismatch after copy!"))))) ∧
    (source, c) ∈ (mkdirParents fs (parentP destination)).files
          ++ [(handleConflicts (mkdirParents fs (parentP destination)) destination,
              xfer c)] := by
  obtain ⟨hm1, hm2, hm3⟩ := pyMove_hash_mismatch fs xfer source destination c
    hwf hc hsize hh hcorrupt hsrc_ne hdst_ne hmk
  obtain ⟨hc1, _, hc3⟩ := pyCopy_hash_mismatch fs xfer source destination c
    hwf hc hsize hh hcorrupt hsrc_ne hdst_ne hmk
  obtain ⟨hp1, hp2⟩ := failMsg_contains_paths (S ("move")) source destination
    (S ("File hash mismatch after move!"))
  exact ⟨hm1, hp1, hp2, hm2, hm3, hc1, hc3⟩

def cBad : Content := ⟨1, [Char.ofNat 35]⟩

def fsH : FS := ⟨[(srcPdf, cBad)], [[S ("s")], [S ("o")]]⟩

def dstH : FPath := [S ("o"), S ("misc"), S ("a.pdf")]

/-- A transfer that corrupts every file it writes. -/
def xferBad : Content → Content := fun c => ⟨c.size, [Char.ofNat 37]⟩

theorem c5_witness :
    pyMove fsH xferBad srcPdf dstH
      = (moveTree (mkdirParents fsH (parentP dstH)) xferBad srcPdf
          (handleConflicts (mkdirParents fsH (parentP dstH)) dstH),
         .error (.runtimeError (failMsg (S ("move")) srcPdf dstH
           (S ("File hash mismatch after move!"))))) ∧
    renderPath srcPdf <:+:
      failMsg (S ("move")) srcPdf dstH (S ("File hash mismatch after move!")) ∧
    renderPath dstH <:+:
      failMsg (S ("move")) srcPdf dstH (S ("File hash mismatch after move!")) ∧
    (handleConflicts (mkdirParents fsH (parentP dstH)) dstH, xferBad cBad)
      ∈ (moveTree (mkdirParents fsH (parentP dstH)) xferBad srcPdf
          (handleConflicts (mkdirParents fsH (parentP dstH)) dstH)).files ∧
    getContent (moveTree (mkdirParents fsH (parentP dstH)) xferBad srcPdf
        (handleConflicts (mkdirParents fsH (parentP dstH)) dstH)) srcPdf = none ∧
    pyCopy fsH xferBad srcPdf dstH
      = (⟨(mkdirParents fsH (parentP dstH)).files
            ++ [(handleConflicts (mkdirParents fsH (parentP dstH)) dstH,
                xferBad cBad)],
          (mkdirParents fsH (parentP dstH)).dirs⟩,
         .error (.runtimeError (failMsg (S ("copy")) srcPdf dstH
           (S ("File hash mismatch after copy!"))))) ∧
    (srcPdf, cBad) ∈ (mkdirParents fsH (parentP dstH)).files
          ++ [(handleConflicts (mkdirParents fsH (parentP dstH)) dstH,
              xferBad cBad)] :=
  c5_checksum_mismatch fsH xferBad srcPdf dstH cBad (by decide) (by decide)
    (by decide) (by decide) (by decide) (by decide) (by decide) (by decide)

set_option maxRecDepth 8000 in
/-- C5 counterexample: at a concrete corrupted move neither the source digest
(`#`) nor the recomputed destination digest (`%`) occurs in the raised error
message, so the failure does not report both digests as the claim states (the
message is the fixed wrapper around `File hash mismatch after move!`). -/
theorem c5_counterexample :
    (pyMove fsH xferBad srcPdf dstH).2
      = .error (.runtimeError (failMsg (S ("move")) srcPdf dstH
          (S ("File hash mismatch after move!")))) ∧
    ¬ (cBad.hash <:+:
        failMsg (S ("move")) srcPdf dstH (S ("File hash mismatch after move!"))) ∧
    ¬ ((xferBad cBad).hash <:+:
        failMsg (S ("move")) srcPdf dstH (S ("File hash mismatch after move!"))) ∧
    getContent (pyMove fsH xferBad srcPdf dstH).1 dstH = some (xferBad cBad) := by
  refine ⟨by decide, by decide, by decide, by decide⟩
